import Mathlib

/-!
Verification development for the CRISP-8 CHIP-8 emulator core
(crisp8_core/src/lib.rs). The Rust core is shallowly embedded:

* machine integers become `Nat` with explicit wrap-arounds
  (`% 256` for `u8` arithmetic, `% 65536` for `u16` arithmetic, matching
  the two-complement wrapping of the release build; every place where the
  Rust code indexes a fixed-capacity array is modelled by a bounds check
  that returns `Except.error Err.outOfBounds` where Rust would panic);
* the fixed-size arrays (`ram`, `screen`, `keys`, `v_reg`, `stack`) become
  lists, with a well-formedness predicate `Emu.Wf` recording their fixed
  lengths and byte ranges;
* the sprite-draw routine additionally records, in order, every address at
  which it performs a `ram` read (`self.ram[row_addr as usize]` in the
  source), so that statements about which memory reads occur are expressible;
* `rand::random()` in opcode `0xCXNN` is modelled by an extra oracle
  argument `rnd` passed to `execute`; the Rust value is a `u8`, so the
  oracle is reduced `% 256` at the use site.
-/

set_option maxRecDepth 16384

namespace Crisp8

def SCREEN_WIDTH : Nat := 64
def SCREEN_HEIGHT : Nat := 32
def RAM_SIZE : Nat := 4096
def NUM_REGS : Nat := 16
def STACK_SIZE : Nat := 16
def NUM_KEYS : Nat := 16
def START_ADDR : Nat := 0x200
def FONT_ADDR : Nat := 0x050
def FONTSET_SIZE : Nat := 80

def FONTSET : List Nat :=
  [0xF0, 0x90, 0x90, 0x90, 0xF0,
   0x20, 0x60, 0x20, 0x20, 0x70,
   0xF0, 0x10, 0xF0, 0x80, 0xF0,
   0xF0, 0x10, 0xF0, 0x10, 0xF0,
   0x90, 0x90, 0xF0, 0x10, 0x10,
   0xF0, 0x80, 0xF0, 0x10, 0xF0,
   0xF0, 0x80, 0xF0, 0x90, 0xF0,
   0xF0, 0x10, 0x20, 0x40, 0x40,
   0xF0, 0x90, 0xF0, 0x90, 0xF0,
   0xF0, 0x90, 0xF0, 0x10, 0xF0,
   0xF0, 0x90, 0xF0, 0x90, 0x90,
   0xE0, 0x90, 0xE0, 0x90, 0xE0,
   0xF0, 0x80, 0x80, 0x80, 0xF0,
   0xE0, 0x90, 0x90, 0x90, 0xE0,
   0xF0, 0x80, 0xF0, 0x80, 0xF0,
   0xF0, 0x80, 0xF0, 0x80, 0x80]

/-- The two fatal failure kinds of the core: the wildcard arm of the opcode
dispatch (Rust `unimplemented!`) and any index outside a fixed capacity
(Rust panics on out-of-bounds slice indexing). -/
inductive Err where
  | unknownOpcode
  | outOfBounds
deriving DecidableEq

instance {ε α : Type} [DecidableEq ε] [DecidableEq α] : DecidableEq (Except ε α) :=
  fun u v =>
  match u, v with
  | Except.error a, Except.error b =>
    if h : a = b then Decidable.isTrue (by rw [h])
    else Decidable.isFalse (fun hc => h (Except.error.inj hc))
  | Except.error _, Except.ok _ => Decidable.isFalse (fun hc => Except.noConfusion hc)
  | Except.ok _, Except.error _ => Decidable.isFalse (fun hc => Except.noConfusion hc)
  | Except.ok a, Except.ok b =>
    if h : a = b then Decidable.isTrue (by rw [h])
    else Decidable.isFalse (fun hc => h (Except.ok.inj hc))

/-- State of the emulator core, mirroring `struct Emu` field by field. -/
structure Emu where
  pc : Nat
  ram : List Nat
  screen : List Bool
  keys : List Bool
  v_reg : List Nat
  i_reg : Nat
  stack : List Nat
  sp : Nat
  dt : Nat
  st : Nat
deriving DecidableEq

/-- Constructor `Emu::new`: zeroed state, pc at `START_ADDR`, fontset copied into
`ram[0x050 .. 0x0a0]` (the `copy_from_slice` call). -/
def Emu.new : Emu :=
  let ram0 : List Nat := List.replicate RAM_SIZE 0
  { pc := START_ADDR
    ram := ram0.take FONT_ADDR ++ FONTSET ++ ram0.drop (FONT_ADDR + FONTSET_SIZE)
    screen := List.replicate (SCREEN_WIDTH * SCREEN_HEIGHT) false
    keys := List.replicate NUM_KEYS false
    v_reg := List.replicate NUM_REGS 0
    i_reg := 0
    stack := List.replicate STACK_SIZE 0
    sp := 0
    dt := 0
    st := 0 }

/-- Method `Emu::reset`: assigns every field exactly as the constructor does
(the argument is fully overwritten, hence ignored). -/
def Emu.reset (_e : Emu) : Emu :=
  let ram0 : List Nat := List.replicate RAM_SIZE 0
  { pc := START_ADDR
    ram := ram0.take FONT_ADDR ++ FONTSET ++ ram0.drop (FONT_ADDR + FONTSET_SIZE)
    screen := List.replicate (SCREEN_WIDTH * SCREEN_HEIGHT) false
    keys := List.replicate NUM_KEYS false
    v_reg := List.replicate NUM_REGS 0
    i_reg := 0
    stack := List.replicate STACK_SIZE 0
    sp := 0
    dt := 0
    st := 0 }

/-- Method `Emu::push`: `self.stack[self.sp] = val; self.sp += 1`. The indexing
panics when `sp` is outside the stack, modelled as `outOfBounds`. -/
def Emu.push (e : Emu) (val : Nat) : Except Err Emu :=
  if e.sp < e.stack.length then
    Except.ok { e with stack := e.stack.set e.sp val, sp := (e.sp + 1) % 65536 }
  else Except.error Err.outOfBounds

/-- Method `Emu::pop`: `self.sp -= 1; self.stack[self.sp]`. With `sp = 0` the
`u16` subtraction wraps to 65535 (release build; the debug build panics on
the subtraction itself) and the subsequent indexing is out of bounds, so
either way an empty stack is a fatal `outOfBounds`. -/
def Emu.pop (e : Emu) : Except Err (Emu × Nat) :=
  let sp2 := (e.sp + 65535) % 65536
  match e.stack.get? sp2 with
  | some v => Except.ok ({ e with sp := sp2 }, v)
  | none => Except.error Err.outOfBounds

/-- Method `Emu::tick_timers`; the returned flag is true exactly when the sound
timer transitions from 1 to 0 (the `println!("Boop!")` notification). -/
def Emu.tick_timers (e : Emu) : Emu × Bool :=
  let dt2 := if e.dt > 0 then e.dt - 1 else e.dt
  if e.st > 0 then
    let st2 := e.st - 1
    ({ e with dt := dt2, st := st2 }, st2 = 0)
  else ({ e with dt := dt2 }, false)

/-- Method `Emu::fetch`: big-endian 16-bit word at `[pc, pc+1]`, then `pc += 2`.
Reads outside ram are fatal. -/
def Emu.fetch (e : Emu) : Except Err (Emu × Nat) :=
  match e.ram.get? e.pc, e.ram.get? ((e.pc + 1) % 65536) with
  | some higher_byte, some lower_byte =>
      Except.ok ({ e with pc := (e.pc + 2) % 65536 }, (higher_byte <<< 8) ||| lower_byte)
  | _, _ => Except.error Err.outOfBounds

/-- Inner column loop of `Emu::draw`, transcribed literally: for each
column the loop first re-checks `y_coord + row >= SCREEN_HEIGHT` (breaking
the column loop), then tests the sprite bit, then checks
`x >= SCREEN_WIDTH` (breaking the column loop), and otherwise XOR-flips
the pixel after OR-ing its previous value into `flip`. The argument
`yRow` is `y_coord + row`, which the Rust loop recomputes unchanged at
every iteration. -/
def drawCols (yRow xCoord pixels : Nat) :
    List Nat → List Bool → Bool → List Bool × Bool
  | [], screen, flip => (screen, flip)
  | col :: rest, screen, flip =>
    if SCREEN_HEIGHT ≤ yRow then (screen, flip)
    else if pixels &&& (0b10000000 >>> col) ≠ 0 then
      let x := xCoord + col
      if SCREEN_WIDTH ≤ x then (screen, flip)
      else
        let pixel_index := x + SCREEN_WIDTH * yRow
        let old := screen.getD pixel_index false
        drawCols yRow xCoord pixels rest
          (screen.set pixel_index (old.xor true)) (flip || old)
    else drawCols yRow xCoord pixels rest screen flip

/-- Outer row loop of `Emu::draw`. Each iteration computes
`row_addr = i_reg + row` (`u16` add) and reads `ram[row_addr]` -- fatal if
out of bounds -- and records that address in `trace`, then runs the column
loop over columns `0..8`. -/
def drawRows (iReg xCoord yCoord : Nat) (ram : List Nat) :
    List Nat → List Bool → Bool → List Nat →
    Except Err (List Bool × Bool × List Nat)
  | [], screen, flip, trace => Except.ok (screen, flip, trace)
  | row :: rest, screen, flip, trace =>
    let row_addr := (iReg + row) % 65536
    match ram.get? row_addr with
    | none => Except.error Err.outOfBounds
    | some pixels =>
      let sf := drawCols (yCoord + row) xCoord pixels (List.range 8) screen flip
      drawRows iReg xCoord yCoord ram rest sf.1 sf.2 (trace ++ [row_addr])

/-- Method `Emu::draw`, returning the updated state together with the ordered
list of ram addresses read by the row loop. The register holding each
origin is read before `v_reg[0xf]` is cleared, exactly as in the source;
after the loops, `v_reg[0xf]` is set to 1 when `flip` ended true. -/
def Emu.draw (e : Emu) (x y n : Nat) : Except Err (Emu × List Nat) :=
  let x_coord := (e.v_reg.getD x 0) % SCREEN_WIDTH
  let y_coord := (e.v_reg.getD y 0) % SCREEN_HEIGHT
  let e1 : Emu := { e with v_reg := e.v_reg.set 0xf 0 }
  match drawRows e.i_reg x_coord y_coord e1.ram (List.range n) e1.screen false [] with
  | Except.error er => Except.error er
  | Except.ok (screen2, flip, trace) =>
    let e2 : Emu := { e1 with screen := screen2 }
    Except.ok ((if flip then { e2 with v_reg := e2.v_reg.set 0xf 1 } else e2), trace)

/-- Row loop as the specification describes it: a row whose y coordinate
reaches the screen height aborts the entire remaining sprite before any
memory read for that row ("outer loop stop"). Written to compare the code
against the words of the spec. -/
def drawRowsSpec (iReg xCoord yCoord : Nat) (ram : List Nat) :
    List Nat → List Bool → Bool → List Nat →
    Except Err (List Bool × Bool × List Nat)
  | [], screen, flip, trace => Except.ok (screen, flip, trace)
  | row :: rest, screen, flip, trace =>
    if SCREEN_HEIGHT ≤ yCoord + row then Except.ok (screen, flip, trace)
    else
      let row_addr := (iReg + row) % 65536
      match ram.get? row_addr with
      | none => Except.error Err.outOfBounds
      | some pixels =>
        let sf := drawCols (yCoord + row) xCoord pixels (List.range 8) screen flip
        drawRowsSpec iReg xCoord yCoord ram rest sf.1 sf.2 (trace ++ [row_addr])

/-- The sprite draw with the outer-loop-stop row clipping of the spec. -/
def Emu.drawSpec (e : Emu) (x y n : Nat) : Except Err (Emu × List Nat) :=
  let x_coord := (e.v_reg.getD x 0) % SCREEN_WIDTH
  let y_coord := (e.v_reg.getD y 0) % SCREEN_HEIGHT
  let e1 : Emu := { e with v_reg := e.v_reg.set 0xf 0 }
  match drawRowsSpec e.i_reg x_coord y_coord e1.ram (List.range n) e1.screen false [] with
  | Except.error er => Except.error er
  | Except.ok (screen2, flip, trace) =>
    let e2 : Emu := { e1 with screen := screen2 }
    Except.ok ((if flip then { e2 with v_reg := e2.v_reg.set 0xf 1 } else e2), trace)

/-- The `0xFX0A` key scan loop: iterate over the key indices in order and
return the first index whose key is down (`pressed` with `break` in the
source), if any. -/
def firstKeyLoop (keys : List Bool) : List Nat → Option Nat
  | [] => none
  | i :: rest => if keys.getD i false then some i else firstKeyLoop keys rest

/-- The `0xFX55` loop: `for i in 0..(x+1) { ram[i_reg + i] = v_reg[i] }`,
transcribed over the index list. Out-of-range ram indices panic. -/
def storeRegs (v : List Nat) (base : Nat) (ram : List Nat) :
    List Nat → Except Err (List Nat)
  | [] => Except.ok ram
  | i :: rest =>
    if base + i < ram.length then
      storeRegs v base (ram.set (base + i) (v.getD i 0)) rest
    else Except.error Err.outOfBounds

/-- The `0xFX65` loop: `for i in 0..(x+1) { v_reg[i] = ram[i_reg + i] }`. -/
def loadRegs (ram : List Nat) (base : Nat) (v : List Nat) :
    List Nat → Except Err (List Nat)
  | [] => Except.ok v
  | i :: rest =>
    match ram.get? (base + i) with
    | some b => loadRegs ram base (v.set i b) rest
    | none => Except.error Err.outOfBounds

/-- The dispatch `match` of `Emu::execute`, arm for arm in source order,
over the four decoded nibbles. Register indices decoded from nibbles are
always below 16, so `v_reg` reads use `getD` (in-range for well-formed
states); the key array in `0xEX9E`/`0xEXA1` is indexed by a full register
value, which the source does not mask, so that access is fallible.
`wrapping_add`/`overflowing_add` on `u8` become `(a + b) % 256` with the
carry test `256 ≤ a + b`, and `overflowing_sub` becomes
`(a + 256 - b % 256) % 256` with the borrow test `a < b` (for byte-range
operands these coincide with the two-complement wrap of the source). -/
def Emu.execDispatch (e : Emu) (op rnd d1 d2 d3 d4 : Nat) : Except Err Emu :=
  match d1, d2, d3, d4 with
  | 0x0, 0x0, 0x0, 0x0 => Except.ok e
  | 0x0, 0x0, 0xe, 0x0 =>
    Except.ok { e with screen := List.replicate (SCREEN_WIDTH * SCREEN_HEIGHT) false }
  | 0x1, _, _, _ =>
    Except.ok { e with pc := op &&& 0x0fff }
  | 0x2, _, _, _ =>
    match e.push e.pc with
    | Except.ok e2 => Except.ok { e2 with pc := op &&& 0x0fff }
    | Except.error er => Except.error er
  | 0x0, 0x0, 0xe, 0xe =>
    match e.pop with
    | Except.ok (e2, ret_addr) => Except.ok { e2 with pc := ret_addr }
    | Except.error er => Except.error er
  | 0x3, x, _, _ =>
    if e.v_reg.getD x 0 = op &&& 0x00ff then Except.ok { e with pc := (e.pc + 2) % 65536 }
    else Except.ok e
  | 0x4, x, _, _ =>
    if e.v_reg.getD x 0 ≠ op &&& 0x00ff then Except.ok { e with pc := (e.pc + 2) % 65536 }
    else Except.ok e
  | 0x5, x, y, 0x0 =>
    if e.v_reg.getD x 0 = e.v_reg.getD y 0 then Except.ok { e with pc := (e.pc + 2) % 65536 }
    else Except.ok e
  | 0x9, x, y, 0x0 =>
    if e.v_reg.getD x 0 ≠ e.v_reg.getD y 0 then Except.ok { e with pc := (e.pc + 2) % 65536 }
    else Except.ok e
  | 0x6, x, _, _ =>
    Except.ok { e with v_reg := e.v_reg.set x (op &&& 0x00ff) }
  | 0x7, x, _, _ =>
    Except.ok { e with v_reg := e.v_reg.set x ((e.v_reg.getD x 0 + (op &&& 0x00ff)) % 256) }
  | 0x8, x, y, 0x0 =>
    Except.ok { e with v_reg := e.v_reg.set x (e.v_reg.getD y 0) }
  | 0x8, x, y, 0x1 =>
    Except.ok { e with v_reg := e.v_reg.set x (e.v_reg.getD x 0 ||| e.v_reg.getD y 0) }
  | 0x8, x, y, 0x2 =>
    Except.ok { e with v_reg := e.v_reg.set x (e.v_reg.getD x 0 &&& e.v_reg.getD y 0) }
  | 0x8, x, y, 0x3 =>
    Except.ok { e with v_reg := e.v_reg.set x (e.v_reg.getD x 0 ^^^ e.v_reg.getD y 0) }
  | 0x8, x, y, 0x4 =>
    let new_vx := (e.v_reg.getD x 0 + e.v_reg.getD y 0) % 256
    let new_vf := if 256 ≤ e.v_reg.getD x 0 + e.v_reg.getD y 0 then 1 else 0
    Except.ok { e with v_reg := (e.v_reg.set x new_vx).set 0xf new_vf }
  | 0x8, x, y, 0x5 =>
    let new_vx := (e.v_reg.getD x 0 + 256 - e.v_reg.getD y 0 % 256) % 256
    let new_vf := if e.v_reg.getD x 0 < e.v_reg.getD y 0 then 0 else 1
    Except.ok { e with v_reg := (e.v_reg.set x new_vx).set 0xf new_vf }
  | 0x8, x, y, 0x7 =>
    let new_vx := (e.v_reg.getD y 0 + 256 - e.v_reg.getD x 0 % 256) % 256
    let new_vf := if e.v_reg.getD y 0 < e.v_reg.getD x 0 then 0 else 1
    Except.ok { e with v_reg := (e.v_reg.set x new_vx).set 0xf new_vf }
  | 0x8, x, _, 0x6 =>
    let lost_bit := e.v_reg.getD x 0 &&& 1
    Except.ok { e with v_reg := (e.v_reg.set x (e.v_reg.getD x 0 >>> 1)).set 0xf lost_bit }
  | 0x8, x, _, 0xe =>
    let lost_bit := (e.v_reg.getD x 0 >>> 7) &&& 1
    Except.ok { e with v_reg := (e.v_reg.set x ((e.v_reg.getD x 0 <<< 1) % 256)).set 0xf lost_bit }
  | 0xa, _, _, _ =>
    Except.ok { e with i_reg := op &&& 0x0fff }
  | 0xb, _, _, _ =>
    Except.ok { e with pc := e.v_reg.getD 0x0 0 + (op &&& 0x0fff) }
  | 0xc, x, _, _ =>
    Except.ok { e with v_reg := e.v_reg.set x ((rnd % 256) &&& (op &&& 0x00ff)) }
  | 0xd, x, y, n =>
    match e.draw x y n with
    | Except.ok (e2, _) => Except.ok e2
    | Except.error er => Except.error er
  | 0xe, x, 0x9, 0xe =>
    match e.keys.get? (e.v_reg.getD x 0) with
    | some k => if k then Except.ok { e with pc := (e.pc + 2) % 65536 } else Except.ok e
    | none => Except.error Err.outOfBounds
  | 0xe, x, 0xa, 0x1 =>
    match e.keys.get? (e.v_reg.getD x 0) with
    | some k => if !k then Except.ok { e with pc := (e.pc + 2) % 65536 } else Except.ok e
    | none => Except.error Err.outOfBounds
  | 0xf, x, 0x0, 0x7 =>
    Except.ok { e with v_reg := e.v_reg.set x e.dt }
  | 0xf, x, 0x1, 0x5 =>
    Except.ok { e with dt := e.v_reg.getD x 0 }
  | 0xf, x, 0x1, 0x8 =>
    Except.ok { e with st := e.v_reg.getD x 0 }
  | 0xf, x, 0x1, 0xe =>
    let i2 := (e.i_reg + e.v_reg.getD x 0) % 65536
    let new_vf := if 0x1000 ≤ i2 then 1 else 0
    Except.ok { e with i_reg := i2, v_reg := e.v_reg.set 0xf new_vf }
  | 0xf, x, 0x0, 0xa =>
    match firstKeyLoop e.keys (List.range e.keys.length) with
    | some i => Except.ok { e with v_reg := e.v_reg.set x i }
    | none => Except.ok { e with pc := (e.pc + 65534) % 65536 }
  | 0xf, x, 0x2, 0x9 =>
    let c := (e.v_reg.getD x 0) &&& 0x0f
    Except.ok { e with i_reg := FONT_ADDR + c * 5 }
  | 0xf, x, 0x3, 0x3 =>
    let vx := e.v_reg.getD x 0
    let h := vx / 100
    let t := (vx - h * 100) / 10
    let u := vx % 10
    if e.i_reg < e.ram.length ∧ (e.i_reg + 1) % 65536 < e.ram.length ∧
        (e.i_reg + 2) % 65536 < e.ram.length then
      let ram2 := ((e.ram.set e.i_reg h).set ((e.i_reg + 1) % 65536) t).set
        ((e.i_reg + 2) % 65536) u
      Except.ok { e with ram := ram2 }
    else Except.error Err.outOfBounds
  | 0xf, x, 0x5, 0x5 =>
    match storeRegs e.v_reg e.i_reg e.ram (List.range (x + 1)) with
    | Except.ok ram2 => Except.ok { e with ram := ram2 }
    | Except.error er => Except.error er
  | 0xf, x, 0x6, 0x5 =>
    match loadRegs e.ram e.i_reg e.v_reg (List.range (x + 1)) with
    | Except.ok v2 => Except.ok { e with v_reg := v2 }
    | Except.error er => Except.error er
  | _, _, _, _ => Except.error Err.unknownOpcode

/-- Method `Emu::execute`: decode the four nibbles exactly as the source does and
dispatch. -/
def Emu.execute (e : Emu) (op rnd : Nat) : Except Err Emu :=
  e.execDispatch op rnd
    ((op &&& 0xf000) >>> 12) ((op &&& 0x0f00) >>> 8) ((op &&& 0x00f0) >>> 4) (op &&& 0x000f)

/-- Method `Emu::tick` (the advance-one-instruction operation): fetch, then
decode and execute. -/
def Emu.tick (e : Emu) (rnd : Nat) : Except Err Emu :=
  match e.fetch with
  | Except.ok (e1, op) => e1.execute op rnd
  | Except.error er => Except.error er

/-- Method `Emu::load`: copy the program bytes into ram starting at `START_ADDR`
(`copy_from_slice` panics when the slice overruns ram). -/
def Emu.load (e : Emu) (data : List Nat) : Except Err Emu :=
  if START_ADDR + data.length ≤ e.ram.length then
    let ram2 := e.ram.take START_ADDR ++ data ++ e.ram.drop (START_ADDR + data.length)
    Except.ok { e with ram := ram2 }
  else Except.error Err.outOfBounds

/-- Method `Emu::keypress`. -/
def Emu.keypress (e : Emu) (key : Nat) (down : Bool) : Except Err Emu :=
  if key < e.keys.length then Except.ok { e with keys := e.keys.set key down }
  else Except.error Err.outOfBounds

/-- Method `Emu::get_screen`. -/
def Emu.get_screen (e : Emu) : List Bool := e.screen

/-- Well-formed states: the list fields have the fixed capacities of the
Rust arrays, their elements are in range of the element types, and the
scalar registers are in `u16`/`u8` range. Every state the Rust core can
hold satisfies this. -/
def Emu.Wf (e : Emu) : Prop :=
  e.ram.length = RAM_SIZE ∧
  e.screen.length = SCREEN_WIDTH * SCREEN_HEIGHT ∧
  e.keys.length = NUM_KEYS ∧
  e.v_reg.length = NUM_REGS ∧
  e.stack.length = STACK_SIZE ∧
  (∀ b ∈ e.ram, b < 256) ∧
  (∀ b ∈ e.v_reg, b < 256) ∧
  e.pc < 65536 ∧ e.i_reg < 65536 ∧ e.sp < 65536

instance (e : Emu) : Decidable e.Wf := by
  unfold Emu.Wf
  infer_instance

/-! ### The set of cells a sprite draw flips

The column loop only ever XOR-flips pixels; which cells get flipped is
determined by the coordinates and the sprite byte alone, never by the
current screen contents. `colCells` computes that cell list, `applyFlips`
replays the flips, and `anyOn` is the collision test against a screen. -/

def flipCell (screen : List Bool) (i : Nat) : List Bool :=
  screen.set i ((screen.getD i false).xor true)

def applyFlips (screen : List Bool) : List Nat → List Bool
  | [] => screen
  | i :: rest => applyFlips (flipCell screen i) rest

def anyOn (screen : List Bool) (cells : List Nat) : Bool :=
  cells.any (fun i => screen.getD i false)

/-- Cells flipped by one run of the column loop. -/
def colCells (yRow xCoord pixels : Nat) : List Nat → List Nat
  | [] => []
  | col :: rest =>
    if SCREEN_HEIGHT ≤ yRow then []
    else if pixels &&& (0b10000000 >>> col) ≠ 0 then
      if SCREEN_WIDTH ≤ xCoord + col then []
      else (xCoord + col + SCREEN_WIDTH * yRow) :: colCells yRow xCoord pixels rest
    else colCells yRow xCoord pixels rest

/-- Cells flipped by the whole row loop. -/
def rowCells (iReg xCoord yCoord : Nat) (ram : List Nat) (rows : List Nat) : List Nat :=
  rows.flatMap fun row =>
    colCells (yCoord + row) xCoord (ram.getD ((iReg + row) % 65536) 0) (List.range 8)

/-- The cells a given draw call flips (derived notion, used to state the
draw claims). -/
def drawCellsOf (e : Emu) (x y n : Nat) : List Nat :=
  rowCells e.i_reg ((e.v_reg.getD x 0) % SCREEN_WIDTH) ((e.v_reg.getD y 0) % SCREEN_HEIGHT)
    e.ram (List.range n)

/-- The register file produced by opcode 0x8xy4: first the wrapped sum is
written to `Vx`, then the carry flag to `V15` (the write order of the
source). -/
def add8Result (e : Emu) (x y : Nat) : List Nat :=
  (e.v_reg.set x ((e.v_reg.getD x 0 + e.v_reg.getD y 0) % 256)).set 0xf
    (if 256 ≤ e.v_reg.getD x 0 + e.v_reg.getD y 0 then 1 else 0)

/-! ### Concrete states used by the counterexamples and witnesses

The indices are kept small (instruction at pc = 0, sprite bytes at low
ram addresses, sprites drawn near the screen origin) so that the kernel
evaluates the witnesses by walking short list prefixes only. -/

/-- A well-formed all-zero state: zero ram, blank screen, no keys down,
zero registers, pc 0. Reachable in the Rust core, for example after a
jump to 0x000 over a zeroed memory. -/
def emu0 : Emu :=
  { pc := 0
    ram := List.replicate RAM_SIZE 0
    screen := List.replicate (SCREEN_WIDTH * SCREEN_HEIGHT) false
    keys := List.replicate NUM_KEYS false
    v_reg := List.replicate NUM_REGS 0
    i_reg := 0
    stack := List.replicate STACK_SIZE 0
    sp := 0
    dt := 0
    st := 0 }

/-- Draw with wrapped start y 31 (V1) and two rows: row 1 falls below the
screen. The index register is 8 and ram is all zero. -/
def exC1 : Emu := { emu0 with i_reg := 8, v_reg := emu0.v_reg.set 1 31 }

/-- An 8-column sprite row 0xff drawn with wrapped origin x = 60 (V0),
y = 0 (V1), sprite byte at ram[8]. -/
def exC2 : Emu := { emu0 with
  i_reg := 8,
  ram := emu0.ram.set 8 0xff,
  v_reg := emu0.v_reg.set 0 60 }

/-- A draw whose x origin register is the flag register itself:
`V15 = 5`, sprite byte 0xf0 at ram[8], drawn by opcode nibbles
x = 15, y = 0. -/
def exC3 : Emu := { emu0 with
  i_reg := 8,
  ram := emu0.ram.set 8 0xf0,
  v_reg := emu0.v_reg.set 15 5 }

/-- A two-row draw with both origin registers different from the flag
register: V0 = V1 = 0, sprite bytes 0xf0 and 0x90 at ram[8], ram[9]. -/
def exC3g : Emu := { emu0 with
  i_reg := 8,
  ram := (emu0.ram.set 8 0xf0).set 9 0x90 }

/-- V0 = 3 and V15 = 5, for executing 0x8f04 (x = 15, y = 0). -/
def exC5 : Emu := { emu0 with v_reg := (emu0.v_reg.set 0 3).set 15 5 }

/-- A state whose next instruction (at pc = 0) is 0xf50a (block for key
into V5), with keys 3 and 7 down. -/
def exC6 : Emu := { emu0 with
  ram := (emu0.ram.set 0 0xf5).set 1 0x0a,
  keys := (emu0.keys.set 3 true).set 7 true }

/-- Same instruction with no key down. -/
def exC6b : Emu := { emu0 with ram := (emu0.ram.set 0 0xf5).set 1 0x0a }

/-- Registers 0 to 3 loaded with 11, 22, 33, 44 and index 8, for the
0xf355 / 0xf365 store-load round trip. -/
def exC7 : Emu := { emu0 with
  i_reg := 8,
  v_reg := (((emu0.v_reg.set 0 11).set 1 22).set 2 33).set 3 44 }

/-- A full call stack (sp = 16). -/
def exC9 : Emu := { emu0 with sp := 16 }

/-- V0 = 16: one past the last valid key index. -/
def exC10 : Emu := { emu0 with v_reg := emu0.v_reg.set 0 16 }

/-! ### Nibble decoding rewrites

The masked shifts of the source are equal to plain division and remainder,
which the arithmetic automation can handle. -/

theorem digit1_eq (op : Nat) : (op &&& 0xf000) >>> 12 = op / 4096 % 16 := by
  apply Nat.eq_of_testBit_eq
  intro j
  rw [Nat.testBit_shiftRight, Nat.testBit_land]
  rw [show (4096 : Nat) = 2 ^ 12 by norm_num, show (16 : Nat) = 2 ^ 4 by norm_num,
    Nat.testBit_mod_two_pow, ← Nat.shiftRight_eq_div_pow, Nat.testBit_shiftRight]
  rw [show (0xf000 : Nat) = (2 ^ 4 - 1) <<< 12 by decide, Nat.testBit_shiftLeft,
    Nat.testBit_two_pow_sub_one]
  simp [Nat.add_sub_cancel_left]
  rw [Bool.and_comm]

theorem digit2_eq (op : Nat) : (op &&& 0x0f00) >>> 8 = op / 256 % 16 := by
  apply Nat.eq_of_testBit_eq
  intro j
  rw [Nat.testBit_shiftRight, Nat.testBit_land]
  rw [show (256 : Nat) = 2 ^ 8 by norm_num, show (16 : Nat) = 2 ^ 4 by norm_num,
    Nat.testBit_mod_two_pow, ← Nat.shiftRight_eq_div_pow, Nat.testBit_shiftRight]
  rw [show (0x0f00 : Nat) = (2 ^ 4 - 1) <<< 8 by decide, Nat.testBit_shiftLeft,
    Nat.testBit_two_pow_sub_one]
  simp [Nat.add_sub_cancel_left]
  rw [Bool.and_comm]

theorem digit3_eq (op : Nat) : (op &&& 0x00f0) >>> 4 = op / 16 % 16 := by
  apply Nat.eq_of_testBit_eq
  intro j
  rw [Nat.testBit_shiftRight, Nat.testBit_land]
  rw [show (16 : Nat) = 2 ^ 4 by norm_num,
    Nat.testBit_mod_two_pow, ← Nat.shiftRight_eq_div_pow, Nat.testBit_shiftRight]
  rw [show (0x00f0 : Nat) = (2 ^ 4 - 1) <<< 4 by decide, Nat.testBit_shiftLeft,
    Nat.testBit_two_pow_sub_one]
  simp [Nat.add_sub_cancel_left]
  rw [Bool.and_comm]

theorem digit4_eq (op : Nat) : op &&& 0x000f = op % 16 := by
  have h := Nat.and_pow_two_sub_one_eq_mod op 4
  norm_num at h
  exact h

theorem low_byte_eq (op : Nat) : op &&& 0x00ff = op % 256 := by
  have h := Nat.and_pow_two_sub_one_eq_mod op 8
  norm_num at h
  exact h

theorem low_tribble_eq (op : Nat) : op &&& 0x0fff = op % 4096 := by
  have h := Nat.and_pow_two_sub_one_eq_mod op 12
  norm_num at h
  exact h

/-- A fetched big-endian word is high byte times 256 plus low byte. -/
theorem byte_combine (hb lb : Nat) (h : lb < 256) :
    (hb <<< 8) ||| lb = hb * 256 + lb := by
  apply Nat.eq_of_testBit_eq
  intro j
  rw [Nat.testBit_lor, Nat.testBit_shiftLeft]
  rw [show hb * 256 + lb = 2 ^ 8 * hb + lb by ring]
  rw [Nat.testBit_mul_pow_two_add hb (show lb < 2 ^ 8 by norm_num at h ⊢; omega) j]
  by_cases hj : j < 8
  · have : ¬ (j ≥ 8) := by omega
    simp [hj, this]
  · have h8 : j ≥ 8 := by omega
    have hlbj : lb.testBit j = false := by
      apply Nat.testBit_lt_two_pow
      calc lb < 256 := h
        _ = 2 ^ 8 := by norm_num
        _ ≤ 2 ^ j := Nat.pow_le_pow_right (by norm_num) h8
    simp [hj, h8, hlbj]

/-- Restatement of `Emu.execute` with the nibbles written as division and remainder. -/
theorem execute_eq_dispatch (e : Emu) (op rnd : Nat) :
    e.execute op rnd =
      e.execDispatch op rnd (op / 4096 % 16) (op / 256 % 16) (op / 16 % 16) (op % 16) := by
  unfold Emu.execute
  rw [digit1_eq, digit2_eq, digit3_eq, digit4_eq]

theorem applyFlips_length (cells : List Nat) :
    ∀ screen : List Bool, (applyFlips screen cells).length = screen.length := by
  induction cells with
  | nil => intro screen; rfl
  | cons i rest ih =>
    intro screen
    rw [applyFlips, ih, flipCell, List.length_set]

theorem applyFlips_append (a b : List Nat) :
    ∀ screen : List Bool, applyFlips screen (a ++ b) = applyFlips (applyFlips screen a) b := by
  induction a with
  | nil => intro screen; rfl
  | cons i rest ih => intro screen; rw [List.cons_append, applyFlips, applyFlips, ih]

theorem applyFlips_getElem?_not_mem (cells : List Nat) :
    ∀ (screen : List Bool) (p : Nat), p ∉ cells →
      (applyFlips screen cells)[p]? = screen[p]? := by
  induction cells with
  | nil => intro screen p _; rfl
  | cons i rest ih =>
    intro screen p hp
    rw [applyFlips, ih _ _ (fun h => hp (List.mem_cons_of_mem i h))]
    exact List.getElem?_set_ne (fun h => hp (by rw [← h]; exact List.mem_cons_self i rest))

theorem applyFlips_getD_not_mem (cells : List Nat) (screen : List Bool) (p : Nat)
    (hp : p ∉ cells) :
    (applyFlips screen cells).getD p false = screen.getD p false := by
  rw [List.getD_eq_getElem?_getD, List.getD_eq_getElem?_getD,
    applyFlips_getElem?_not_mem cells screen p hp]

/-- Pointwise effect of replaying a duplicate-free list of flips. -/
theorem applyFlips_getElem? (cells : List Nat) :
    ∀ (screen : List Bool) (p : Nat), cells.Nodup →
      (applyFlips screen cells)[p]? =
        (screen[p]?).map (fun b => if p ∈ cells then !b else b) := by
  induction cells with
  | nil =>
    intro screen p _
    show screen[p]? = (screen[p]?).map (fun b => if p ∈ ([] : List Nat) then !b else b)
    cases screen[p]? <;> simp
  | cons i rest ih =>
    intro screen p hnd
    have hnd2 := List.nodup_cons.mp hnd
    rw [applyFlips, ih _ _ hnd2.2]
    by_cases hip : p = i
    · subst hip
      have hpr : p ∉ rest := hnd2.1
      simp only [List.mem_cons, true_or, if_pos rfl, hpr]
      by_cases hlen : p < screen.length
      · rw [flipCell, List.getElem?_set_self (by assumption),
          List.getD_eq_getElem?_getD]
        rcases (List.getElem?_eq_some).mp
          (show screen[p]? = some screen[p] from List.getElem?_eq_getElem hlen) with _
        rw [List.getElem?_eq_getElem hlen]
        simp [Bool.xor_true]
      · have hnone : screen[p]? = none := List.getElem?_eq_none (by omega)
        rw [flipCell]
        have : (screen.set p ((screen.getD p false).xor true))[p]? = none := by
          apply List.getElem?_eq_none
          rw [List.length_set]; omega
        rw [this, hnone]
        rfl
    · rw [flipCell, List.getElem?_set_ne (fun h => hip h.symm)]
      by_cases hpm : p ∈ rest
      · simp [hpm, List.mem_cons, hip]
      · simp [hpm, List.mem_cons, hip]

/-- Replaying the same duplicate-free flips twice is the identity. -/
theorem applyFlips_applyFlips (cells : List Nat) (screen : List Bool)
    (hnd : cells.Nodup) :
    applyFlips (applyFlips screen cells) cells = screen := by
  apply List.ext_getElem?
  intro p
  rw [applyFlips_getElem? cells _ p hnd, applyFlips_getElem? cells _ p hnd]
  cases screen[p]? with
  | none => rfl
  | some b =>
    by_cases hp : p ∈ cells
    · simp [hp]
    · simp [hp]

/-- The scan `anyOn` ignores flips at cells outside the list it scans. -/
theorem anyOn_applyFlips_disjoint (a : List Nat) (screen : List Bool) :
    ∀ b : List Nat, (∀ q ∈ b, q ∉ a) →
      anyOn (applyFlips screen a) b = anyOn screen b := by
  intro b
  induction b with
  | nil => intro _; rfl
  | cons q rest ih =>
    intro hd
    unfold anyOn at ih ⊢
    simp only [List.any_cons]
    rw [applyFlips_getD_not_mem a screen q (hd q (List.mem_cons_self q rest)),
      ih (fun r hr => hd r (List.mem_cons_of_mem q hr))]

/-! ### The column loop through the cell abstraction -/

theorem drawCols_fst (yRow xCoord pixels : Nat) :
    ∀ (cols : List Nat) (screen : List Bool) (flip : Bool),
      (drawCols yRow xCoord pixels cols screen flip).1 =
        applyFlips screen (colCells yRow xCoord pixels cols) := by
  intro cols
  induction cols with
  | nil => intro screen flip; rfl
  | cons col rest ih =>
    intro screen flip
    by_cases h1 : SCREEN_HEIGHT ≤ yRow
    · simp [drawCols, colCells, h1, applyFlips]
    · by_cases h2 : pixels &&& (0b10000000 >>> col) ≠ 0
      · by_cases h3 : SCREEN_WIDTH ≤ xCoord + col
        · simp [drawCols, colCells, h1, h2, h3, applyFlips]
        · simp only [drawCols, colCells]
          rw [if_neg h1, if_neg h1, if_pos h2, if_pos h2, if_neg h3, if_neg h3]
          rw [applyFlips]
          exact ih _ _
      · simp only [drawCols, colCells]
        rw [if_neg h1, if_neg h1, if_neg h2, if_neg h2]
        exact ih _ _

theorem colCells_mem (yRow xCoord pixels : Nat) :
    ∀ (cols : List Nat) (q : Nat), q ∈ colCells yRow xCoord pixels cols →
      ∃ col ∈ cols, q = xCoord + col + SCREEN_WIDTH * yRow ∧
        xCoord + col < SCREEN_WIDTH ∧ yRow < SCREEN_HEIGHT := by
  intro cols
  induction cols with
  | nil => intro q hq; exact absurd hq (List.not_mem_nil q)
  | cons col rest ih =>
    intro q hq
    rw [colCells] at hq
    by_cases h1 : SCREEN_HEIGHT ≤ yRow
    · rw [if_pos h1] at hq; exact absurd hq (List.not_mem_nil q)
    · rw [if_neg h1] at hq
      by_cases h2 : pixels &&& (0b10000000 >>> col) ≠ 0
      · rw [if_pos h2] at hq
        by_cases h3 : SCREEN_WIDTH ≤ xCoord + col
        · rw [if_pos h3] at hq; exact absurd hq (List.not_mem_nil q)
        · rw [if_neg h3] at hq
          rcases List.mem_cons.mp hq with h | h
          · exact ⟨col, List.mem_cons_self col rest, h, by omega, by omega⟩
          · rcases ih q h with ⟨c, hc, hrest⟩
            exact ⟨c, List.mem_cons_of_mem col hc, hrest⟩
      · rw [if_neg h2] at hq
        rcases ih q hq with ⟨c, hc, hrest⟩
        exact ⟨c, List.mem_cons_of_mem col hc, hrest⟩

theorem colCells_nodup (yRow xCoord pixels : Nat) :
    ∀ cols : List Nat, cols.Nodup → (colCells yRow xCoord pixels cols).Nodup := by
  intro cols
  induction cols with
  | nil => intro _; exact List.nodup_nil
  | cons col rest ih =>
    intro hnd
    have hnd2 := List.nodup_cons.mp hnd
    rw [colCells]
    by_cases h1 : SCREEN_HEIGHT ≤ yRow
    · rw [if_pos h1]; exact List.nodup_nil
    · rw [if_neg h1]
      by_cases h2 : pixels &&& (0b10000000 >>> col) ≠ 0
      · rw [if_pos h2]
        by_cases h3 : SCREEN_WIDTH ≤ xCoord + col
        · rw [if_pos h3]; exact List.nodup_nil
        · rw [if_neg h3]
          apply List.nodup_cons.mpr
          constructor
          · intro hmem
            rcases colCells_mem yRow xCoord pixels rest _ hmem with ⟨c, hc, heq, hlt, _⟩
            have : col = c := by omega
            exact hnd2.1 (this ▸ hc)
          · exact ih hnd2.2
      · rw [if_neg h2]; exact ih hnd2.2

theorem drawCols_snd (yRow xCoord pixels : Nat) :
    ∀ (cols : List Nat) (screen : List Bool) (flip : Bool), cols.Nodup →
      (drawCols yRow xCoord pixels cols screen flip).2 =
        (flip || anyOn screen (colCells yRow xCoord pixels cols)) := by
  intro cols
  induction cols with
  | nil => intro screen flip _; simp [drawCols, colCells, anyOn]
  | cons col rest ih =>
    intro screen flip hnd
    have hnd2 := List.nodup_cons.mp hnd
    by_cases h1 : SCREEN_HEIGHT ≤ yRow
    · simp only [drawCols, colCells]
      rw [if_pos h1, if_pos h1]
      simp [anyOn]
    · by_cases h2 : pixels &&& (0b10000000 >>> col) ≠ 0
      · by_cases h3 : SCREEN_WIDTH ≤ xCoord + col
        · simp only [drawCols, colCells]
          rw [if_neg h1, if_neg h1, if_pos h2, if_pos h2, if_pos h3, if_pos h3]
          simp [anyOn]
        · simp only [drawCols, colCells]
          rw [if_neg h1, if_neg h1, if_pos h2, if_pos h2, if_neg h3, if_neg h3]
          rw [ih _ _ hnd2.2]
          have hdisj : ∀ q ∈ colCells yRow xCoord pixels rest,
              q ∉ [xCoord + col + SCREEN_WIDTH * yRow] := by
            intro q hq hq2
            rcases colCells_mem yRow xCoord pixels rest q hq with ⟨c, hc, heq, hlt, _⟩
            rcases List.mem_singleton.mp hq2 with h
            have : col = c := by omega
            exact hnd2.1 (this ▸ hc)
          have hany : anyOn
              (screen.set (xCoord + col + SCREEN_WIDTH * yRow)
                ((screen.getD (xCoord + col + SCREEN_WIDTH * yRow) false).xor true))
              (colCells yRow xCoord pixels rest) =
              anyOn screen (colCells yRow xCoord pixels rest) :=
            anyOn_applyFlips_disjoint [xCoord + col + SCREEN_WIDTH * yRow] screen _ hdisj
          rw [hany]
          unfold anyOn
          rw [List.any_cons, Bool.or_assoc]
      · simp only [drawCols, colCells]
        rw [if_neg h1, if_neg h1, if_neg h2, if_neg h2]
        exact ih _ _ hnd2.2

theorem drawCols_high (yRow xCoord pixels : Nat) (h : SCREEN_HEIGHT ≤ yRow) :
    ∀ (cols : List Nat) (screen : List Bool) (flip : Bool),
      drawCols yRow xCoord pixels cols screen flip = (screen, flip) := by
  intro cols screen flip
  cases cols with
  | nil => rfl
  | cons col rest => rw [drawCols, if_pos h]

/-! ### The row loop through the cell abstraction -/

theorem rowCells_cons (iReg xCoord yCoord : Nat) (ram : List Nat) (r : Nat) (rest : List Nat) :
    rowCells iReg xCoord yCoord ram (r :: rest) =
      colCells (yCoord + r) xCoord (ram.getD ((iReg + r) % 65536) 0) (List.range 8) ++
        rowCells iReg xCoord yCoord ram rest := by
  rfl

/-- Shape of a cell produced by some row of the row loop. -/
theorem rowCells_mem (iReg xCoord yCoord : Nat) (ram : List Nat) (rows : List Nat) (q : Nat)
    (hq : q ∈ rowCells iReg xCoord yCoord ram rows) :
    ∃ r ∈ rows, ∃ c, c < 8 ∧ q = xCoord + c + SCREEN_WIDTH * (yCoord + r) ∧
      xCoord + c < SCREEN_WIDTH ∧ yCoord + r < SCREEN_HEIGHT := by
  rcases List.mem_flatMap.mp hq with ⟨r, hr, hq2⟩
  rcases colCells_mem _ _ _ _ _ hq2 with ⟨c, hc, heq, hlt, hy⟩
  exact ⟨r, hr, c, List.mem_range.mp hc, heq, hlt, hy⟩

/-- Cells of a row not in `rest` are disjoint from the cells of `rest`:
the quotient by the screen width recovers the row. -/
theorem rowCells_disjoint_col (iReg xCoord yCoord : Nat) (ram : List Nat) (r : Nat)
    (rest : List Nat) (hr : r ∉ rest) :
    ∀ q ∈ rowCells iReg xCoord yCoord ram rest,
      q ∉ colCells (yCoord + r) xCoord (ram.getD ((iReg + r) % 65536) 0) (List.range 8) := by
  intro q hq hq2
  rcases rowCells_mem _ _ _ _ rest q hq with ⟨r2, hr2, c2, hc2, heq2, hlt2, hy2⟩
  rcases colCells_mem _ _ _ _ q hq2 with ⟨c, hc, heq, hlt, hy⟩
  have hw : SCREEN_WIDTH = 64 := rfl
  have hh : SCREEN_HEIGHT = 32 := rfl
  rw [hw] at heq2 hlt2 heq hlt
  rw [hh] at hy2 hy
  have : r = r2 := by omega
  exact hr (this ▸ hr2)

theorem rowCells_nodup (iReg xCoord yCoord : Nat) (ram : List Nat) :
    ∀ rows : List Nat, rows.Nodup → (rowCells iReg xCoord yCoord ram rows).Nodup := by
  intro rows
  induction rows with
  | nil => intro _; exact List.nodup_nil
  | cons r rest ih =>
    intro hnd
    have hnd2 := List.nodup_cons.mp hnd
    rw [rowCells_cons]
    apply List.nodup_append.mpr
    refine ⟨colCells_nodup _ _ _ _ (List.nodup_range 8), ih hnd2.2, ?_⟩
    intro q hq hq2
    exact rowCells_disjoint_col iReg xCoord yCoord ram r rest hnd2.1 q hq2 hq

/-- Full characterisation of a successful run of the row loop: the final
screen replays the cell flips, the final collision flag tests the initial
screen on those cells, and the trace records the read address of every
row, clipped or not. -/
theorem drawRows_ok (iReg xCoord yCoord : Nat) (ram : List Nat) :
    ∀ (rows : List Nat) (screen : List Bool) (flip : Bool) (trace : List Nat)
      (s2 : List Bool) (f2 : Bool) (t2 : List Nat), rows.Nodup →
      drawRows iReg xCoord yCoord ram rows screen flip trace = Except.ok (s2, f2, t2) →
      s2 = applyFlips screen (rowCells iReg xCoord yCoord ram rows) ∧
      f2 = (flip || anyOn screen (rowCells iReg xCoord yCoord ram rows)) ∧
      t2 = trace ++ rows.map (fun r => (iReg + r) % 65536) := by
  intro rows
  induction rows with
  | nil =>
    intro screen flip trace s2 f2 t2 _ h
    rw [drawRows] at h
    cases h
    simp [rowCells, applyFlips, anyOn]
  | cons r rest ih =>
    intro screen flip trace s2 f2 t2 hnd h
    have hnd2 := List.nodup_cons.mp hnd
    rw [drawRows] at h
    cases hget : ram.get? ((iReg + r) % 65536) with
    | none => rw [hget] at h; cases h
    | some pixels =>
      rw [hget] at h
      have hpix : ram.getD ((iReg + r) % 65536) 0 = pixels := by
        rw [List.getD_eq_getElem?_getD, ← List.get?_eq_getElem?, hget]
        rfl
      rcases ih _ _ _ _ _ _ hnd2.2 h with ⟨hs, hf, ht⟩
      rw [drawCols_fst] at hs hf
      rw [drawCols_snd _ _ _ _ _ _ (List.nodup_range 8)] at hf
      have hdisj : ∀ q ∈ rowCells iReg xCoord yCoord ram rest,
          q ∉ colCells (yCoord + r) xCoord pixels (List.range 8) := by
        rw [← hpix]
        exact rowCells_disjoint_col iReg xCoord yCoord ram r rest hnd2.1
      refine ⟨?_, ?_, ?_⟩
      · rw [rowCells_cons, hpix, applyFlips_append]
        exact hs
      · rw [rowCells_cons, hpix]
        unfold anyOn
        rw [List.any_append]
        rw [hf, anyOn_applyFlips_disjoint _ _ _ hdisj]
        unfold anyOn
        rw [Bool.or_assoc]
      · rw [ht, List.map_cons, List.append_assoc]
        rfl

/-- If every row of the list is clipped (y at or beyond the screen
height), a successful row loop leaves screen and flag unchanged. -/
theorem drawRows_allHigh (iReg xCoord yCoord : Nat) (ram : List Nat) :
    ∀ (rows : List Nat) (screen : List Bool) (flip : Bool) (trace : List Nat)
      (s2 : List Bool) (f2 : Bool) (t2 : List Nat),
      (∀ r ∈ rows, SCREEN_HEIGHT ≤ yCoord + r) →
      drawRows iReg xCoord yCoord ram rows screen flip trace = Except.ok (s2, f2, t2) →
      s2 = screen ∧ f2 = flip := by
  intro rows
  induction rows with
  | nil =>
    intro screen flip trace s2 f2 t2 _ h
    rw [drawRows] at h
    cases h
    exact ⟨rfl, rfl⟩
  | cons r rest ih =>
    intro screen flip trace s2 f2 t2 hall h
    rw [drawRows] at h
    cases hget : ram.get? ((iReg + r) % 65536) with
    | none => rw [hget] at h; cases h
    | some pixels =>
      simp only [hget] at h
      rw [drawCols_high _ _ _ (hall r (List.mem_cons_self r rest))] at h
      exact ih _ _ _ _ _ _ (fun r2 hr2 => hall r2 (List.mem_cons_of_mem r hr2)) h

/-- A successful code row loop over an ascending row list yields exactly
the state of the spec row loop (outer-loop stop); only the traces can
differ. -/
theorem drawRowsSpec_of_ok (iReg xCoord yCoord : Nat) (ram : List Nat) :
    ∀ (rows : List Nat), rows.Pairwise (· ≤ ·) →
      ∀ (screen : List Bool) (flip : Bool) (trace : List Nat)
        (s2 : List Bool) (f2 : Bool) (t2 : List Nat) (traceS : List Nat),
      drawRows iReg xCoord yCoord ram rows screen flip trace = Except.ok (s2, f2, t2) →
      ∃ t3, drawRowsSpec iReg xCoord yCoord ram rows screen flip traceS =
        Except.ok (s2, f2, t3) := by
  intro rows
  induction rows with
  | nil =>
    intro _ screen flip trace s2 f2 t2 traceS h
    rw [drawRows] at h
    cases h
    exact ⟨traceS, rfl⟩
  | cons r rest ih =>
    intro hpw screen flip trace s2 f2 t2 traceS h
    have hpw2 := List.pairwise_cons.mp hpw
    rw [drawRows] at h
    cases hget : ram.get? ((iReg + r) % 65536) with
    | none => rw [hget] at h; cases h
    | some pixels =>
      simp only [hget] at h
      by_cases hy : SCREEN_HEIGHT ≤ yCoord + r
      · rw [drawCols_high _ _ _ hy] at h
        have hall : ∀ r2 ∈ rest, SCREEN_HEIGHT ≤ yCoord + r2 := by
          intro r2 hr2
          have := hpw2.1 r2 hr2
          omega
        rcases drawRows_allHigh iReg xCoord yCoord ram rest _ _ _ _ _ _ hall h with ⟨hs, hf⟩
        refine ⟨traceS, ?_⟩
        rw [drawRowsSpec, if_pos hy, hs, hf]
      · rcases ih hpw2.2 _ _ _ _ _ _ (traceS ++ [(iReg + r) % 65536]) h with ⟨t3, ht3⟩
        refine ⟨t3, ?_⟩
        rw [drawRowsSpec]
        simp only [if_neg hy, hget]
        exact ht3

/-- Success of the row loop depends only on `iReg`, `ram` and the row
list, never on coordinates, screen or flag. -/
theorem drawRows_ok_of_ok (iReg : Nat) (ram : List Nat) :
    ∀ (rows : List Nat) (xc yc : Nat) (screen : List Bool) (flip : Bool) (trace : List Nat)
      (o : List Bool × Bool × List Nat),
      drawRows iReg xc yc ram rows screen flip trace = Except.ok o →
      ∀ (xc2 yc2 : Nat) (screen2 : List Bool) (flip2 : Bool) (trace2 : List Nat),
        ∃ o2, drawRows iReg xc2 yc2 ram rows screen2 flip2 trace2 = Except.ok o2 := by
  intro rows
  induction rows with
  | nil =>
    intro xc yc screen flip trace o _ xc2 yc2 screen2 flip2 trace2
    exact ⟨(screen2, flip2, trace2), rfl⟩
  | cons r rest ih =>
    intro xc yc screen flip trace o h xc2 yc2 screen2 flip2 trace2
    rw [drawRows] at h
    cases hget : ram.get? ((iReg + r) % 65536) with
    | none => rw [hget] at h; cases h
    | some pixels =>
      rw [hget] at h
      rcases ih _ _ _ _ _ _ h xc2 yc2
        (drawCols (yc2 + r) xc2 pixels (List.range 8) screen2 flip2).1
        (drawCols (yc2 + r) xc2 pixels (List.range 8) screen2 flip2).2
        (trace2 ++ [(iReg + r) % 65536]) with ⟨o2, ho2⟩
      refine ⟨o2, ?_⟩
      rw [drawRows, hget]
      exact ho2

/-! ### The draw operation itself -/

theorem getD_set_ne {α : Type} (l : List α) (i j : Nat) (a d : α) (h : i ≠ j) :
    (l.set i a).getD j d = l.getD j d := by
  rw [List.getD_eq_getElem?_getD, List.getD_eq_getElem?_getD, List.getElem?_set_ne h]

theorem getD_set_self {α : Type} (l : List α) (i : Nat) (a d : α) (h : i < l.length) :
    (l.set i a).getD i d = a := by
  rw [List.getD_eq_getElem?_getD, List.getElem?_set_self h]
  rfl

/-- Every successful draw: final screen replays the flips of
`drawCellsOf`, the flag register reports a collision against the starting
screen, every other field is untouched, and the trace reads one byte per
row for all `n` rows. -/
theorem draw_char (e : Emu) (x y n : Nat) (e2 : Emu) (tr : List Nat)
    (h : e.draw x y n = Except.ok (e2, tr)) :
    e2.screen = applyFlips e.screen (drawCellsOf e x y n) ∧
    e2.v_reg = e.v_reg.set 0xf (if anyOn e.screen (drawCellsOf e x y n) then 1 else 0) ∧
    e2.ram = e.ram ∧ e2.i_reg = e.i_reg ∧ e2.pc = e.pc ∧ e2.keys = e.keys ∧
    e2.stack = e.stack ∧ e2.sp = e.sp ∧ e2.dt = e.dt ∧ e2.st = e.st ∧
    tr = (List.range n).map (fun r => (e.i_reg + r) % 65536) := by
  rw [Emu.draw] at h
  cases hdr : drawRows e.i_reg ((e.v_reg.getD x 0) % SCREEN_WIDTH)
      ((e.v_reg.getD y 0) % SCREEN_HEIGHT) e.ram (List.range n) e.screen false [] with
  | error er => rw [hdr] at h; cases h
  | ok o =>
    rcases o with ⟨s2, flip, trace⟩
    rw [hdr] at h
    rcases drawRows_ok _ _ _ _ _ _ _ _ _ _ _ (List.nodup_range n) hdr with ⟨hs, hf, ht⟩
    rw [Bool.false_or] at hf
    rw [List.nil_append] at ht
    cases h
    unfold drawCellsOf
    rw [← hf, ← hs]
    cases flip
    · exact ⟨rfl, rfl, rfl, rfl, rfl, rfl, rfl, rfl, rfl, rfl, ht⟩
    · refine ⟨rfl, ?_, rfl, rfl, rfl, rfl, rfl, rfl, rfl, rfl, ht⟩
      show (e.v_reg.set 15 0).set 15 1 = e.v_reg.set 15 1
      rw [List.set_set]

/-! ### Claim C1 -/

/-- C1, corrected. A clipped row (wrapped start y plus row number at or
beyond 32) draws no pixels and the resulting state equals the outer-loop
stop semantics of the spec, but the row loop itself keeps iterating: the
memory read at index+row still occurs for every row below n, clipped rows
and all rows after them included -- the trace of a successful draw lists
one read per row of the full range. -/
theorem c1_row_clip_stops_inner_loop_only (e : Emu) (x y n : Nat) (e2 : Emu)
    (tr : List Nat) (h : e.draw x y n = Except.ok (e2, tr)) :
    tr = (List.range n).map (fun r => (e.i_reg + r) % 65536) ∧
    ∃ tr2, e.drawSpec x y n = Except.ok (e2, tr2) := by
  have htr :=
    (draw_char e x y n e2 tr h).2.2.2.2.2.2.2.2.2.2
  refine ⟨htr, ?_⟩
  rw [Emu.draw] at h
  cases hdr : drawRows e.i_reg ((e.v_reg.getD x 0) % SCREEN_WIDTH)
      ((e.v_reg.getD y 0) % SCREEN_HEIGHT) e.ram (List.range n) e.screen false [] with
  | error er => rw [hdr] at h; cases h
  | ok o =>
    rcases o with ⟨s2, flip, trace⟩
    rw [hdr] at h
    rcases drawRowsSpec_of_ok e.i_reg ((e.v_reg.getD x 0) % SCREEN_WIDTH)
        ((e.v_reg.getD y 0) % SCREEN_HEIGHT) e.ram (List.range n)
        ((List.pairwise_lt_range n).imp le_of_lt) _ _ _ _ _ _ [] hdr with ⟨t3, ht3⟩
    cases h
    refine ⟨t3, ?_⟩
    rw [Emu.drawSpec, ht3]

/-- C1 counterexample: with wrapped start y 31 (V1) and n = 2, row 1 is
clipped (31 + 1 reaches the screen height 32), yet the code still reads
memory at index + 1 = 9: the read trace of the draw is [8, 9], while the
outer-loop-stop semantics of the spec sentence stops before that read and
traces only [8]. -/
theorem c1_counterexample :
    (Emu.draw exC1 0 1 2).map (fun u => u.2) = Except.ok [8, 9] ∧
    (Emu.drawSpec exC1 0 1 2).map (fun u => u.2) = Except.ok [8] := by
  constructor
  · decide
  · decide

/-- Witness for the amended C1 at the concrete state `exC1`. -/
theorem c1_witness :
    (Emu.draw exC1 0 1 2).map (fun u => u.2) =
      Except.ok ((List.range 2).map (fun r => (exC1.i_reg + r) % 65536)) ∧
    (Emu.drawSpec exC1 0 1 2).isOk = true := by
  have hok : (Emu.draw exC1 0 1 2).isOk = true := by decide
  cases hd : Emu.draw exC1 0 1 2 with
  | error er => rw [hd] at hok; cases hok
  | ok o =>
    rcases o with ⟨e2, tr⟩
    rcases c1_row_clip_stops_inner_loop_only exC1 0 1 2 e2 tr hd with ⟨htr, tr2, hspec⟩
    constructor
    · simp only [Except.map]
      rw [htr]
    · rw [hspec]
      rfl

/-! ### Claim C2 -/

/-- C2, confirmed. Any framebuffer cell changed by a draw lies in the
8-column window starting at the wrapped origin x, clipped at the right
screen edge: its column is at least the wrapped x origin (nothing wraps
to the left edge) and less than origin + 8, and the cell index is a real
cell below 64 * 32. Moreover the row loop still attempts every row: the
trace reads one sprite byte per row for all n rows. -/
theorem c2_columns_clip_not_wrap (e : Emu) (x y n : Nat) (e2 : Emu)
    (tr : List Nat) (h : e.draw x y n = Except.ok (e2, tr)) :
    (∀ p, e2.screen.getD p false ≠ e.screen.getD p false →
      (e.v_reg.getD x 0) % SCREEN_WIDTH ≤ p % SCREEN_WIDTH ∧
      p % SCREEN_WIDTH < (e.v_reg.getD x 0) % SCREEN_WIDTH + 8 ∧
      p < SCREEN_WIDTH * SCREEN_HEIGHT) ∧
    tr = (List.range n).map (fun r => (e.i_reg + r) % 65536) := by
  rcases draw_char e x y n e2 tr h with ⟨hs, _, _, _, _, _, _, _, _, _, ht⟩
  refine ⟨?_, ht⟩
  intro p hp
  have hpC : p ∈ drawCellsOf e x y n := by
    by_contra hpc
    rw [hs, applyFlips_getD_not_mem _ _ _ hpc] at hp
    exact hp rfl
  unfold drawCellsOf at hpC
  rcases rowCells_mem _ _ _ _ _ _ hpC with ⟨r, _, c, hc8, heq, hlt, hyr⟩
  have hw : SCREEN_WIDTH = 64 := rfl
  have hh : SCREEN_HEIGHT = 32 := rfl
  rw [hw] at heq hlt ⊢
  rw [hh] at heq hyr ⊢
  omega

/-- Witness for C2: drawing the 0xff row at wrapped origin x = 60 changes
cell 63, whose column 63 is inside [60, 68) and on screen; the dropped
columns 64 to 67 never wrap to columns 0 to 3. -/
theorem c2_witness :
    (exC2.v_reg.getD 0 0) % SCREEN_WIDTH ≤ 63 % SCREEN_WIDTH ∧
    63 % SCREEN_WIDTH < (exC2.v_reg.getD 0 0) % SCREEN_WIDTH + 8 ∧
    63 < SCREEN_WIDTH * SCREEN_HEIGHT := by
  have hok : (Emu.draw exC2 0 1 1).isOk = true := by decide
  cases hd : Emu.draw exC2 0 1 1 with
  | error er => rw [hd] at hok; cases hok
  | ok o =>
    rcases o with ⟨e2, tr⟩
    have hm : (Emu.draw exC2 0 1 1).map (fun u => u.1.screen.getD 63 false) =
        Except.ok true := by decide
    rw [hd] at hm
    simp only [Except.map, Except.ok.injEq] at hm
    refine (c2_columns_clip_not_wrap exC2 0 1 1 e2 tr hd).1 63 ?_
    rw [hm]
    decide

/-! ### Claim C3 -/

/-- C3, corrected by excluding the flag register as an origin register:
for origin register indices other than 15, drawing the same sprite twice
in succession succeeds, restores the framebuffer exactly (XOR is its own
inverse), and whenever the first draw turned some pixel from off to on,
the second draw reports a collision in V15. With an origin register equal
to 15 this fails, because the first draw overwrites V15 and so moves the
second sprite. -/
theorem c3_double_draw_restores (e : Emu) (x y n : Nat) (e1 : Emu) (tr1 : List Nat)
    (hwf : e.Wf) (hx : x ≠ 0xf) (hy : y ≠ 0xf)
    (h1 : e.draw x y n = Except.ok (e1, tr1)) :
    (∃ o, e1.draw x y n = Except.ok o) ∧
    ∀ (e2 : Emu) (tr2 : List Nat), e1.draw x y n = Except.ok (e2, tr2) →
      e2.screen = e.screen ∧
      ∀ p, e.screen.getD p false = false → e1.screen.getD p false = true →
        e2.v_reg.getD 0xf 0 = 1 := by
  rcases draw_char e x y n e1 tr1 h1 with
    ⟨hs1, hv1, hram1, hi1, _, _, _, _, _, _, _⟩
  have hgx : e1.v_reg.getD x 0 = e.v_reg.getD x 0 := by
    rw [hv1]; exact getD_set_ne _ _ _ _ _ (Ne.symm hx)
  have hgy : e1.v_reg.getD y 0 = e.v_reg.getD y 0 := by
    rw [hv1]; exact getD_set_ne _ _ _ _ _ (Ne.symm hy)
  have hcells : drawCellsOf e1 x y n = drawCellsOf e x y n := by
    unfold drawCellsOf
    rw [hgx, hgy, hram1, hi1]
  have hnd : (drawCellsOf e x y n).Nodup := by
    unfold drawCellsOf
    exact rowCells_nodup _ _ _ _ _ (List.nodup_range n)
  -- success of the second draw: extract the first row-loop run and
  -- transfer it
  rw [Emu.draw] at h1
  cases hdr1 : drawRows e.i_reg ((e.v_reg.getD x 0) % SCREEN_WIDTH)
      ((e.v_reg.getD y 0) % SCREEN_HEIGHT) e.ram (List.range n) e.screen false [] with
  | error er => rw [hdr1] at h1; cases h1
  | ok o1 =>
    rcases drawRows_ok_of_ok e.i_reg e.ram (List.range n) _ _ _ _ _ _ hdr1
      ((e.v_reg.getD x 0) % SCREEN_WIDTH) ((e.v_reg.getD y 0) % SCREEN_HEIGHT)
      e1.screen false [] with ⟨o2, hdr2⟩
    have hok2 : ∃ o, e1.draw x y n = Except.ok o := by
      rw [Emu.draw, hgx, hgy, hram1, hi1, hdr2]
      rcases o2 with ⟨s2v, flip2, trace2⟩
      exact ⟨_, rfl⟩
    refine ⟨hok2, ?_⟩
    intro e2 tr2 h2
    rcases draw_char e1 x y n e2 tr2 h2 with
      ⟨hs2, hv2, _, _, _, _, _, _, _, _, _⟩
    rw [hcells] at hs2 hv2
    constructor
    · rw [hs2, hs1, applyFlips_applyFlips _ _ hnd]
    · intro p hp0 hp1
      have hpC : p ∈ drawCellsOf e x y n := by
        by_contra hpc
        rw [hs1, applyFlips_getD_not_mem _ _ _ hpc, hp0] at hp1
        cases hp1
      have hflag : anyOn e1.screen (drawCellsOf e x y n) = true := by
        unfold anyOn
        rw [List.any_eq_true]
        exact ⟨p, hpC, by rw [hp1]⟩
      rw [hv2, hflag]
      have hlen : 0xf < e1.v_reg.length := by
        rw [hv1, List.length_set]
        have h16 := hwf.2.2.2.1
        rw [h16]
        decide
      rw [getD_set_self _ _ _ _ hlen]
      decide

/-- Well-formedness of the base example state. -/
theorem emu0_wf : emu0.Wf :=
  ⟨List.length_replicate _ _, List.length_replicate _ _, List.length_replicate _ _,
   List.length_replicate _ _, List.length_replicate _ _,
   fun b hb => by rw [List.eq_of_mem_replicate hb]; norm_num,
   fun b hb => by rw [List.eq_of_mem_replicate hb]; norm_num,
   by decide, by decide, by decide⟩

/-- Well-formedness of the state used by the C3 witness. -/
theorem exC3g_wf : exC3g.Wf := by
  refine ⟨?_, ?_, ?_, ?_, ?_, ?_, ?_, ?_, ?_, ?_⟩
  · show ((emu0.ram.set 8 0xf0).set 9 0x90).length = RAM_SIZE
    rw [List.length_set, List.length_set]
    exact List.length_replicate _ _
  · exact List.length_replicate _ _
  · exact List.length_replicate _ _
  · exact List.length_replicate _ _
  · exact List.length_replicate _ _
  · intro b hb
    rcases List.mem_or_eq_of_mem_set hb with hb2 | hb2
    · rcases List.mem_or_eq_of_mem_set hb2 with hb3 | hb3
      · rw [List.eq_of_mem_replicate hb3]; norm_num
      · rw [hb3]; norm_num
    · rw [hb2]; norm_num
  · intro b hb
    rw [List.eq_of_mem_replicate hb]; norm_num
  · decide
  · decide
  · decide

/-- C3 counterexample: the claim quantifies over every origin register,
including V15. Starting from `exC3` (V15 = 5), executing the identical
draw with x origin register 15 twice does not restore the framebuffer:
the first draw overwrites V15 with 0, so the second sprite lands at
x = 0 and pixel 0, initially off, ends up on. -/
theorem c3_counterexample :
    ((Emu.draw exC3 15 0 1).bind (fun u => Emu.draw u.1 15 0 1)).map
      (fun u => u.1.screen.getD 0 false) = Except.ok true ∧
    exC3.screen.getD 0 false = false := by
  constructor
  · decide
  · decide

/-- Witness for the amended C3 at the concrete state `exC3g`: the double
draw restores the all-off screen (tested with boolean equality) and sets
the collision flag, pixel 0 having been set by the first draw. -/
theorem c3_witness :
    ((Emu.draw exC3g 0 1 2).bind (fun u => Emu.draw u.1 0 1 2)).map
      (fun u => (u.1.screen == exC3g.screen, u.1.v_reg.getD 0xf 0)) =
    Except.ok (true, 1) := by
  have hok : (Emu.draw exC3g 0 1 2).isOk = true := by decide
  cases hd : Emu.draw exC3g 0 1 2 with
  | error er => rw [hd] at hok; cases hok
  | ok o =>
    rcases o with ⟨e1, tr1⟩
    have h := c3_double_draw_restores exC3g 0 1 2 e1 tr1 exC3g_wf
      (by decide) (by decide) hd
    rcases h.1 with ⟨o2, hd2⟩
    rcases o2 with ⟨e2, tr2⟩
    have h2 := h.2 e2 tr2 hd2
    have hp1 : e1.screen.getD 0 false = true := by
      have hm : (Emu.draw exC3g 0 1 2).map (fun u => u.1.screen.getD 0 false) =
          Except.ok true := by decide
      rw [hd] at hm
      simp only [Except.map, Except.ok.injEq] at hm
      exact hm
    have hflag := h2.2 0 (by decide) hp1
    simp only [Except.bind, Except.map]
    rw [hd2]
    simp only [Except.map]
    rw [h2.1, hflag]
    simp

/-! ### Claim C4 -/

/-- C4, corrected. Opcode 0x7xnn always sets Vx to (Vx + nn) mod 256; the
flag register is left unchanged whenever x is not 15 -- no carry flag is
ever written -- but for x = 15 the flag register is itself the
destination and receives the sum. -/
theorem c4_add_immediate_no_flag (e : Emu) (rnd x nn : Nat) (hx : x < 16)
    (hnn : nn < 256) :
    e.execute (0x7000 + 256 * x + nn) rnd =
      Except.ok { e with v_reg := e.v_reg.set x ((e.v_reg.getD x 0 + nn) % 256) } ∧
    (x ≠ 0xf →
      (e.v_reg.set x ((e.v_reg.getD x 0 + nn) % 256)).getD 0xf 0 =
        e.v_reg.getD 0xf 0) := by
  constructor
  · rw [execute_eq_dispatch]
    have h1 : (0x7000 + 256 * x + nn) / 4096 % 16 = 7 := by omega
    have h2 : (0x7000 + 256 * x + nn) / 256 % 16 = x := by omega
    rw [h1, h2]
    have hstep : e.execDispatch (0x7000 + 256 * x + nn) rnd 7 x
        ((0x7000 + 256 * x + nn) / 16 % 16) ((0x7000 + 256 * x + nn) % 16) =
        Except.ok { e with v_reg := e.v_reg.set x ((e.v_reg.getD x 0 + ((0x7000 + 256 * x + nn) &&& 0x00ff)) % 256) } :=
      rfl
    rw [hstep, low_byte_eq]
    have h3 : (0x7000 + 256 * x + nn) % 256 = nn := by omega
    rw [h3]
  · intro h15
    exact getD_set_ne _ _ _ _ _ h15

/-- C4 counterexample: executing 0x7f01 (x = 15, nn = 1) from the zero
state changes the flag register from 0 to 1, so 0x7xnn with x = 15 does
not leave V15 unchanged. -/
theorem c4_counterexample :
    (Emu.execute emu0 0x7f01 0).map (fun u => u.v_reg.getD 0xf 0) = Except.ok 1 ∧
    emu0.v_reg.getD 0xf 0 = 0 := by
  constructor
  · decide
  · decide

/-- Witness for the amended C4 at x = 3, nn = 1 on the zero state. -/
theorem c4_witness :
    Emu.execute emu0 0x7301 0 =
      Except.ok { emu0 with v_reg := emu0.v_reg.set 3 ((emu0.v_reg.getD 3 0 + 1) % 256) } ∧
    (emu0.v_reg.set 3 ((emu0.v_reg.getD 3 0 + 1) % 256)).getD 0xf 0 =
      emu0.v_reg.getD 0xf 0 := by
  have h := c4_add_immediate_no_flag emu0 0 3 1 (by decide) (by decide)
  exact ⟨h.1, h.2 (by decide)⟩

/-! ### Claim C5 -/

/-- C5, corrected. Opcode 0x8xy4 writes the wrapped sum to Vx and then
the carry flag to V15, in that order: the final register file is
`add8Result`, the flag register always ends as the carry bit, and for
x different from 15 the destination register holds the wrapped sum. For
x = 15 the sum is overwritten by the carry, so the claim as stated
(V15 = sum and V15 = carry simultaneously) fails. -/
theorem c5_add_registers_flag_order (e : Emu) (rnd x y : Nat) (hwf : e.Wf)
    (hx : x < 16) (hy : y < 16) :
    e.execute (0x8004 + 256 * x + 16 * y) rnd =
      Except.ok { e with v_reg := add8Result e x y } ∧
    (add8Result e x y).getD 0xf 0 =
      (if 256 ≤ e.v_reg.getD x 0 + e.v_reg.getD y 0 then 1 else 0) ∧
    (x ≠ 0xf → (add8Result e x y).getD x 0 =
      (e.v_reg.getD x 0 + e.v_reg.getD y 0) % 256) := by
  refine ⟨?_, ?_, ?_⟩
  · rw [execute_eq_dispatch]
    have h1 : (0x8004 + 256 * x + 16 * y) / 4096 % 16 = 8 := by omega
    have h2 : (0x8004 + 256 * x + 16 * y) / 256 % 16 = x := by omega
    have h3 : (0x8004 + 256 * x + 16 * y) / 16 % 16 = y := by omega
    have h4 : (0x8004 + 256 * x + 16 * y) % 16 = 4 := by omega
    rw [h1, h2, h3, h4]
    rfl
  · have hlen : 0xf < (e.v_reg.set x ((e.v_reg.getD x 0 + e.v_reg.getD y 0) % 256)).length := by
      rw [List.length_set]
      have h16 := hwf.2.2.2.1
      rw [h16]
      decide
    exact getD_set_self _ _ _ _ hlen
  · intro h15
    unfold add8Result
    rw [getD_set_ne _ _ _ _ _ (fun hh => h15 hh.symm)]
    have hlen : x < e.v_reg.length := by
      have h16 := hwf.2.2.2.1
      rw [h16]
      exact hx
    exact getD_set_self _ _ _ _ hlen

/-- C5 counterexample: with V15 = 5 and V0 = 3, opcode 0x8f04 (x = 15,
y = 0) leaves V15 = 0 (the carry), not the wrapped sum 8 that the claim
asserts for Vx. -/
theorem c5_counterexample :
    (Emu.execute exC5 0x8f04 0).map (fun u => u.v_reg.getD 0xf 0) = Except.ok 0 ∧
    (exC5.v_reg.getD 0xf 0 + exC5.v_reg.getD 0 0) % 256 = 8 ∧ (0 : Nat) ≠ 8 := by
  refine ⟨by decide, by decide, by decide⟩

/-- Well-formedness of the C5 example state. -/
theorem exC5_wf : exC5.Wf := by
  refine ⟨?_, ?_, ?_, ?_, ?_, ?_, ?_, ?_, ?_, ?_⟩
  · exact List.length_replicate _ _
  · exact List.length_replicate _ _
  · exact List.length_replicate _ _
  · show ((emu0.v_reg.set 0 3).set 15 5).length = NUM_REGS
    rw [List.length_set, List.length_set]
    exact List.length_replicate _ _
  · exact List.length_replicate _ _
  · intro b hb
    rw [List.eq_of_mem_replicate hb]; norm_num
  · intro b hb
    rcases List.mem_or_eq_of_mem_set hb with hb2 | hb2
    · rcases List.mem_or_eq_of_mem_set hb2 with hb3 | hb3
      · rw [List.eq_of_mem_replicate hb3]; norm_num
      · rw [hb3]; norm_num
    · rw [hb2]; norm_num
  · decide
  · decide
  · decide

/-- Witness for the amended C5 at x = 0, y = 1 on `exC5`: V0 becomes
(3 + 0) mod 256 and the flag register reports no carry. -/
theorem c5_witness :
    Emu.execute exC5 0x8014 0 = Except.ok { exC5 with v_reg := add8Result exC5 0 1 } ∧
    (add8Result exC5 0 1).getD 0xf 0 =
      (if 256 ≤ exC5.v_reg.getD 0 0 + exC5.v_reg.getD 1 0 then 1 else 0) ∧
    (add8Result exC5 0 1).getD 0 0 =
      (exC5.v_reg.getD 0 0 + exC5.v_reg.getD 1 0) % 256 := by
  have h := c5_add_registers_flag_order exC5 0 0 1 exC5_wf (by decide) (by decide)
  exact ⟨h.1, h.2.1, h.2.2 (by decide)⟩

/-! ### Claim C6 -/

theorem firstKeyLoop_none (keys : List Bool) :
    ∀ l : List Nat, (∀ j ∈ l, keys.getD j false = false) →
      firstKeyLoop keys l = none := by
  intro l
  induction l with
  | nil => intro _; rfl
  | cons i rest ih =>
    intro h
    rw [firstKeyLoop, h i (List.mem_cons_self i rest)]
    simp only [Bool.false_eq_true, if_false]
    exact ih fun j hj => h j (List.mem_cons_of_mem i hj)

theorem firstKeyLoop_range' (keys : List Bool) (k : Nat)
    (hk : keys.getD k false = true)
    (hmin : ∀ j, j < k → keys.getD j false = false) :
    ∀ (b a : Nat), a ≤ k → k < a + b →
      firstKeyLoop keys (List.range' a b) = some k := by
  intro b
  induction b with
  | zero => intro a h1 h2; omega
  | succ b2 ih =>
    intro a h1 h2
    rw [List.range'_succ, firstKeyLoop]
    by_cases hak : a = k
    · rw [hak, hk]
      simp
    · rw [hmin a (by omega)]
      simp only [Bool.false_eq_true, if_false]
      exact ih (a + 1) (by omega) (by omega)

/-- C6, confirmed. Executing 0xfx0a through a full fetch-execute step: if
some key is down, the lowest down index is stored into Vx and the program
counter ends two bytes past the instruction; if no key is down, the
instruction rewinds the program counter by 2, cancelling the fetch
increment, so the state is returned completely unchanged and the same
instruction will be fetched again. -/
theorem c6_block_for_key (e : Emu) (rnd x : Nat) (hwf : e.Wf) (hx : x < 16)
    (hhb : e.ram.get? e.pc = some (0xf0 + x))
    (hlb : e.ram.get? (e.pc + 1) = some 0x0a) :
    (∀ k, e.keys.getD k false = true → (∀ j, j < k → e.keys.getD j false = false) →
      e.tick rnd = Except.ok { e with pc := e.pc + 2, v_reg := e.v_reg.set x k }) ∧
    ((∀ j, j < 16 → e.keys.getD j false = false) → e.tick rnd = Except.ok e) := by
  have hpc : e.pc + 1 < RAM_SIZE := by
    by_contra hc
    rw [List.get?_eq_none.mpr (by rw [hwf.1]; omega)] at hlb
    cases hlb
  have hpc1 : (e.pc + 1) % 65536 = e.pc + 1 := by
    have : RAM_SIZE = 4096 := rfl
    omega
  have hpc2 : (e.pc + 2) % 65536 = e.pc + 2 := by
    have : RAM_SIZE = 4096 := rfl
    omega
  have hfetch : e.fetch =
      Except.ok ({ e with pc := e.pc + 2 }, ((0xf0 + x) <<< 8) ||| 0x0a) := by
    rw [Emu.fetch, hpc1, hhb, hlb, hpc2]
  have hop : ((0xf0 + x) <<< 8) ||| 0x0a = 61440 + 256 * x + 10 := by
    rw [byte_combine _ _ (by norm_num)]
    ring
  have hklen : List.range e.keys.length = List.range' 0 16 := by
    rw [hwf.2.2.1]
    rw [List.range_eq_range']
    rfl
  have htick : ∀ res, Emu.execute { e with pc := e.pc + 2 } (61440 + 256 * x + 10) rnd = res →
      e.tick rnd = res := by
    intro res hres
    rw [Emu.tick, hfetch, hop]
    exact hres
  have hdisp : ∀ res, Emu.execDispatch { e with pc := e.pc + 2 } (61440 + 256 * x + 10) rnd
      0xf x 0x0 0xa = res →
      Emu.execute { e with pc := e.pc + 2 } (61440 + 256 * x + 10) rnd = res := by
    intro res hres
    rw [execute_eq_dispatch]
    have h1 : (61440 + 256 * x + 10) / 4096 % 16 = 15 := by omega
    have h2 : (61440 + 256 * x + 10) / 256 % 16 = x := by omega
    have h3 : (61440 + 256 * x + 10) / 16 % 16 = 0 := by omega
    have h4 : (61440 + 256 * x + 10) % 16 = 10 := by omega
    rw [h1, h2, h3, h4]
    exact hres
  constructor
  · intro k hk hmin
    have hk16 : k < 16 := by
      by_contra hc
      have hkl : e.keys.length ≤ k := by
        rw [hwf.2.2.1]
        have h16 : NUM_KEYS = 16 := rfl
        omega
      rw [List.getD_eq_default _ _ hkl] at hk
      cases hk
    apply htick _ (hdisp _ ?_)
    have hloop : firstKeyLoop e.keys (List.range e.keys.length) = some k := by
      rw [hklen]
      exact firstKeyLoop_range' e.keys k hk hmin 16 0 (by omega) (by omega)
    show (match firstKeyLoop e.keys (List.range e.keys.length) with
      | some i => Except.ok { e with pc := e.pc + 2, v_reg := e.v_reg.set x i }
      | none => Except.ok { e with pc := (e.pc + 2 + 65534) % 65536 }) = _
    rw [hloop]
  · intro hnone
    apply htick _ (hdisp _ ?_)
    have hloop : firstKeyLoop e.keys (List.range e.keys.length) = none := by
      rw [hklen]
      apply firstKeyLoop_none
      intro j hj
      rw [List.mem_range'_1] at hj
      exact hnone j (by omega)
    show (match firstKeyLoop e.keys (List.range e.keys.length) with
      | some i => Except.ok { e with pc := e.pc + 2, v_reg := e.v_reg.set x i }
      | none => Except.ok { e with pc := (e.pc + 2 + 65534) % 65536 }) = _
    rw [hloop]
    have hrewind : (e.pc + 2 + 65534) % 65536 = e.pc := by
      have : RAM_SIZE = 4096 := rfl
      omega
    rw [hrewind]

/-- Well-formedness of the C6 example states. -/
theorem exC6_wf : exC6.Wf := by
  refine ⟨?_, ?_, ?_, ?_, ?_, ?_, ?_, ?_, ?_, ?_⟩
  · show ((emu0.ram.set 0 0xf5).set 1 0x0a).length = RAM_SIZE
    rw [List.length_set, List.length_set]
    exact List.length_replicate _ _
  · exact List.length_replicate _ _
  · show ((emu0.keys.set 3 true).set 7 true).length = NUM_KEYS
    rw [List.length_set, List.length_set]
    exact List.length_replicate _ _
  · exact List.length_replicate _ _
  · exact List.length_replicate _ _
  · intro b hb
    rcases List.mem_or_eq_of_mem_set hb with hb2 | hb2
    · rcases List.mem_or_eq_of_mem_set hb2 with hb3 | hb3
      · rw [List.eq_of_mem_replicate hb3]; norm_num
      · rw [hb3]; norm_num
    · rw [hb2]; norm_num
  · intro b hb
    rw [List.eq_of_mem_replicate hb]; norm_num
  · decide
  · decide
  · decide

theorem exC6b_wf : exC6b.Wf := by
  refine ⟨?_, ?_, ?_, ?_, ?_, ?_, ?_, ?_, ?_, ?_⟩
  · show ((emu0.ram.set 0 0xf5).set 1 0x0a).length = RAM_SIZE
    rw [List.length_set, List.length_set]
    exact List.length_replicate _ _
  · exact List.length_replicate _ _
  · exact List.length_replicate _ _
  · exact List.length_replicate _ _
  · exact List.length_replicate _ _
  · intro b hb
    rcases List.mem_or_eq_of_mem_set hb with hb2 | hb2
    · rcases List.mem_or_eq_of_mem_set hb2 with hb3 | hb3
      · rw [List.eq_of_mem_replicate hb3]; norm_num
      · rw [hb3]; norm_num
    · rw [hb2]; norm_num
  · intro b hb
    rw [List.eq_of_mem_replicate hb]; norm_num
  · decide
  · decide
  · decide

/-- Witness for C6: with keys 3 and 7 down and instruction 0xf50a at
pc = 0, one tick stores the lowest down index 3 into V5 and advances pc
to 2; with no key down, one tick returns the state unchanged. -/
theorem c6_witness :
    Emu.tick exC6 0 = Except.ok { exC6 with pc := exC6.pc + 2, v_reg := exC6.v_reg.set 5 3 } ∧
    Emu.tick exC6b 0 = Except.ok exC6b := by
  constructor
  · exact (c6_block_for_key exC6 0 5 exC6_wf (by decide) (by decide) (by decide)).1
      3 (by decide) (by decide)
  · exact (c6_block_for_key exC6b 0 5 exC6b_wf (by decide) (by decide) (by decide)).2
      (by decide)

/-! ### Claim C7 -/

theorem set_getD_self {α : Type} (l : List α) (i : Nat) (d : α) (h : i < l.length) :
    l.set i (l.getD i d) = l := by
  apply List.ext_getElem?
  intro n
  by_cases hin : i = n
  · rw [← hin, List.getElem?_set_self h, List.getD_eq_getElem?_getD,
      List.getElem?_eq_getElem h]
    rfl
  · exact List.getElem?_set_ne hin

theorem storeRegs_ok (v : List Nat) (base : Nat) :
    ∀ (l : List Nat) (ram : List Nat), (∀ i ∈ l, base + i < ram.length) →
      ∃ ram2, storeRegs v base ram l = Except.ok ram2 ∧ ram2.length = ram.length := by
  intro l
  induction l with
  | nil => intro ram _; exact ⟨ram, rfl, rfl⟩
  | cons i rest ih =>
    intro ram hb
    rcases ih (ram.set (base + i) (v.getD i 0))
        (fun j hj => by rw [List.length_set]; exact hb j (List.mem_cons_of_mem i hj)) with
      ⟨ram2, h1, h2⟩
    refine ⟨ram2, ?_, ?_⟩
    · rw [storeRegs, if_pos (hb i (List.mem_cons_self i rest))]
      exact h1
    · rw [h2, List.length_set]

theorem storeRegs_frame (v : List Nat) (base : Nat) :
    ∀ (l : List Nat) (ram ram2 : List Nat) (a : Nat),
      storeRegs v base ram l = Except.ok ram2 → (∀ i ∈ l, base + i ≠ a) →
      ram2.get? a = ram.get? a := by
  intro l
  induction l with
  | nil =>
    intro ram ram2 a h _
    rw [storeRegs] at h
    cases h
    rfl
  | cons i rest ih =>
    intro ram ram2 a h hne
    rw [storeRegs] at h
    by_cases hlt : base + i < ram.length
    · rw [if_pos hlt] at h
      rw [ih _ _ _ h (fun j hj => hne j (List.mem_cons_of_mem i hj))]
      rw [List.get?_eq_getElem?, List.get?_eq_getElem?,
        List.getElem?_set_ne (hne i (List.mem_cons_self i rest))]
    · rw [if_neg hlt] at h
      cases h

theorem storeRegs_get? (v : List Nat) (base : Nat) :
    ∀ (l : List Nat) (ram ram2 : List Nat), l.Nodup →
      storeRegs v base ram l = Except.ok ram2 →
      ∀ i ∈ l, ram2.get? (base + i) = some (v.getD i 0) := by
  intro l
  induction l with
  | nil => intro ram ram2 _ _ i hi; exact absurd hi (List.not_mem_nil i)
  | cons j rest ih =>
    intro ram ram2 hnd h i hi
    have hnd2 := List.nodup_cons.mp hnd
    rw [storeRegs] at h
    by_cases hlt : base + j < ram.length
    · rw [if_pos hlt] at h
      rcases List.mem_cons.mp hi with hij | hirest
      · rw [hij]
        rw [storeRegs_frame v base rest _ _ _ h
          (fun i2 hi2 => fun hc => hnd2.1 (by
            have : i2 = j := by omega
            rw [← this]
            exact hi2))]
        rw [List.get?_eq_getElem?, List.getElem?_set_self hlt]
      · exact ih _ _ hnd2.2 h i hirest
    · rw [if_neg hlt] at h
      cases h

theorem loadRegs_roundtrip (base : Nat) :
    ∀ (l : List Nat) (ram v : List Nat),
      (∀ i ∈ l, ram.get? (base + i) = some (v.getD i 0)) →
      (∀ i ∈ l, i < v.length) →
      loadRegs ram base v l = Except.ok v := by
  intro l
  induction l with
  | nil => intro ram v _ _; rfl
  | cons i rest ih =>
    intro ram v hget hlen
    rw [loadRegs, hget i (List.mem_cons_self i rest)]
    show loadRegs ram base (v.set i (v.getD i 0)) rest = Except.ok v
    rw [set_getD_self v i 0 (hlen i (List.mem_cons_self i rest))]
    exact ih _ _ (fun j hj => hget j (List.mem_cons_of_mem i hj))
      (fun j hj => hlen j (List.mem_cons_of_mem i hj))

/-- C7, confirmed. Executing 0xfx55 then 0xfx65 with the block
`[index, index + x]` inside ram: the store succeeds and only changes
ram, the subsequent load writes every stored byte back into the very
register it came from, and the final state differs from the initial one
in the ram field alone -- in particular V0..Vx (indeed the whole register
file) and the index register are exactly as before the store. -/
theorem c7_store_load_roundtrip (e : Emu) (rnd x : Nat) (hwf : e.Wf) (hx : x < 16)
    (hbound : e.i_reg + x < RAM_SIZE) :
    ∃ ram2, e.execute (0xf055 + 256 * x) rnd = Except.ok { e with ram := ram2 } ∧
      Emu.execute { e with ram := ram2 } (0xf065 + 256 * x) rnd =
        Except.ok { e with ram := ram2 } ∧
      ({ e with ram := ram2 } : Emu).v_reg = e.v_reg ∧
      ({ e with ram := ram2 } : Emu).i_reg = e.i_reg := by
  have hblock : ∀ i ∈ List.range (x + 1), e.i_reg + i < e.ram.length := by
    intro i hi
    rw [List.mem_range] at hi
    rw [hwf.1]
    omega
  rcases storeRegs_ok e.v_reg e.i_reg (List.range (x + 1)) e.ram hblock with
    ⟨ram2, hstore, hlen2⟩
  refine ⟨ram2, ?_, ?_, rfl, rfl⟩
  · rw [execute_eq_dispatch]
    have h1 : (0xf055 + 256 * x) / 4096 % 16 = 15 := by omega
    have h2 : (0xf055 + 256 * x) / 256 % 16 = x := by omega
    have h3 : (0xf055 + 256 * x) / 16 % 16 = 5 := by omega
    have h4 : (0xf055 + 256 * x) % 16 = 5 := by omega
    rw [h1, h2, h3, h4]
    show (match storeRegs e.v_reg e.i_reg e.ram (List.range (x + 1)) with
      | Except.ok ram3 => Except.ok { e with ram := ram3 }
      | Except.error er => Except.error er) = _
    rw [hstore]
  · rw [execute_eq_dispatch]
    have h1 : (0xf065 + 256 * x) / 4096 % 16 = 15 := by omega
    have h2 : (0xf065 + 256 * x) / 256 % 16 = x := by omega
    have h3 : (0xf065 + 256 * x) / 16 % 16 = 6 := by omega
    have h4 : (0xf065 + 256 * x) % 16 = 5 := by omega
    rw [h1, h2, h3, h4]
    have hload : loadRegs ram2 e.i_reg e.v_reg (List.range (x + 1)) = Except.ok e.v_reg := by
      apply loadRegs_roundtrip
      · exact storeRegs_get? e.v_reg e.i_reg (List.range (x + 1)) e.ram ram2
          (List.nodup_range (x + 1)) hstore
      · intro i hi
        rw [List.mem_range] at hi
        rw [hwf.2.2.2.1]
        have h16 : NUM_REGS = 16 := rfl
        omega
    show (match loadRegs ram2 e.i_reg e.v_reg (List.range (x + 1)) with
      | Except.ok v2 => Except.ok { e with ram := ram2, v_reg := v2 }
      | Except.error er => Except.error er) = _
    rw [hload]

/-- Well-formedness of the C7 example state. -/
theorem exC7_wf : exC7.Wf := by
  refine ⟨?_, ?_, ?_, ?_, ?_, ?_, ?_, ?_, ?_, ?_⟩
  · exact List.length_replicate _ _
  · exact List.length_replicate _ _
  · exact List.length_replicate _ _
  · show ((((emu0.v_reg.set 0 11).set 1 22).set 2 33).set 3 44).length = NUM_REGS
    rw [List.length_set, List.length_set, List.length_set, List.length_set]
    exact List.length_replicate _ _
  · exact List.length_replicate _ _
  · intro b hb
    rw [List.eq_of_mem_replicate hb]; norm_num
  · intro b hb
    rcases List.mem_or_eq_of_mem_set hb with hb | hb
    · rcases List.mem_or_eq_of_mem_set hb with hb | hb
      · rcases List.mem_or_eq_of_mem_set hb with hb | hb
        · rcases List.mem_or_eq_of_mem_set hb with hb | hb
          · rw [List.eq_of_mem_replicate hb]; norm_num
          · rw [hb]; norm_num
        · rw [hb]; norm_num
      · rw [hb]; norm_num
    · rw [hb]; norm_num
  · decide
  · decide
  · decide

/-- Witness for C7 at `exC7` (V0..V3 = 11, 22, 33, 44, index 8): the
store-load pair returns a state whose register file equals the original
and whose index register is still 8. -/
theorem c7_witness :
    ((Emu.execute exC7 0xf355 0).bind (fun u => u.execute 0xf365 0)).map
      (fun u => (u.v_reg == exC7.v_reg, u.i_reg)) = Except.ok (true, 8) := by
  rcases c7_store_load_roundtrip exC7 0 3 exC7_wf (by decide) (by decide) with
    ⟨ram2, h1, h2, hv, hi⟩
  rw [h1]
  simp only [Except.bind, Except.map]
  rw [h2]
  simp only [Except.map]
  rw [hv, hi]
  simp [exC7]

/-! ### Claim C8 -/

/-- C8, confirmed. `reset` on every state produces exactly the
construction-time state: `reset` equals `new` field for field, and `new`
is the state with pc = 0x200, empty stack (sp = 0), zero index and
timers, zeroed registers, keys and framebuffer, and a 4096-byte memory
that is zero everywhere except the 80-byte font table starting at
0x050. -/
theorem c8_reset_equals_new (e : Emu) :
    e.reset = Emu.new ∧
    Emu.new.pc = START_ADDR ∧ Emu.new.sp = 0 ∧ Emu.new.i_reg = 0 ∧
    Emu.new.dt = 0 ∧ Emu.new.st = 0 ∧
    Emu.new.v_reg = List.replicate NUM_REGS 0 ∧
    Emu.new.keys = List.replicate NUM_KEYS false ∧
    Emu.new.stack = List.replicate STACK_SIZE 0 ∧
    Emu.new.screen = List.replicate (SCREEN_WIDTH * SCREEN_HEIGHT) false ∧
    Emu.new.ram.length = RAM_SIZE ∧
    (∀ a, Emu.new.ram.getD a 0 =
      if FONT_ADDR ≤ a ∧ a < FONT_ADDR + FONTSET_SIZE then FONTSET.getD (a - FONT_ADDR) 0
      else 0) := by
  have hfl : FONTSET.length = 80 := rfl
  have htl : ((List.replicate RAM_SIZE (0 : Nat)).take FONT_ADDR).length = 80 := by
    rw [List.length_take, List.length_replicate]
    decide
  refine ⟨rfl, rfl, rfl, rfl, rfl, rfl, rfl, rfl, rfl, rfl, ?_, ?_⟩
  · show ((List.replicate RAM_SIZE (0 : Nat)).take FONT_ADDR ++ FONTSET ++
      (List.replicate RAM_SIZE (0 : Nat)).drop (FONT_ADDR + FONTSET_SIZE)).length = RAM_SIZE
    rw [List.append_assoc, List.length_append, List.length_append, htl, hfl,
      List.length_drop, List.length_replicate]
    decide
  · intro a
    show ((List.replicate RAM_SIZE (0 : Nat)).take FONT_ADDR ++ FONTSET ++
      (List.replicate RAM_SIZE (0 : Nat)).drop (FONT_ADDR + FONTSET_SIZE)).getD a 0 = _
    rw [List.append_assoc, List.getD_eq_getElem?_getD, List.getElem?_append, htl]
    by_cases ha1 : a < 80
    · rw [if_pos ha1, List.getElem?_take, if_pos (show a < FONT_ADDR by
        have : FONT_ADDR = 80 := rfl
        omega), List.getElem?_replicate, if_pos (show a < RAM_SIZE by
        have : RAM_SIZE = 4096 := rfl
        omega)]
      have hc : ¬ (FONT_ADDR ≤ a ∧ a < FONT_ADDR + FONTSET_SIZE) := by
        have h80 : FONT_ADDR = 80 := rfl
        omega
      rw [if_neg hc]
      rfl
    · rw [if_neg ha1, List.getElem?_append, hfl]
      by_cases ha2 : a < 160
      · rw [if_pos (by omega)]
        have hc : FONT_ADDR ≤ a ∧ a < FONT_ADDR + FONTSET_SIZE := by
          have h80 : FONT_ADDR = 80 := rfl
          have h80b : FONTSET_SIZE = 80 := rfl
          omega
        rw [if_pos hc]
        have hsub : a - FONT_ADDR = a - 80 := rfl
        rw [hsub, List.getD_eq_getElem?_getD]
      · rw [if_neg (by omega), List.getElem?_drop, List.getElem?_replicate]
        have hc : ¬ (FONT_ADDR ≤ a ∧ a < FONT_ADDR + FONTSET_SIZE) := by
          have h80 : FONT_ADDR = 80 := rfl
          have h80b : FONTSET_SIZE = 80 := rfl
          omega
        rw [if_neg hc]
        by_cases ha3 : FONT_ADDR + FONTSET_SIZE + (a - 80 - 80) < RAM_SIZE
        · rw [if_pos ha3]
          rfl
        · rw [if_neg ha3]
          rfl

/-! ### Claim C9 -/

/-- C9, confirmed. With 16 return addresses on the call stack, a
subroutine call 0x2nnn fails with the Out Of Bounds error (the push
indexes the full stack); with an empty stack, a return 0x00ee fails the
same way (the stack pointer wraps to 65535 and the indexing fails); and
Out Of Bounds is a different error from Unknown Opcode. -/
theorem c9_stack_overflow_underflow (e : Emu) (rnd nnn : Nat) (hwf : e.Wf) :
    (e.sp = STACK_SIZE →
      e.execute (0x2000 + nnn % 4096) rnd = Except.error Err.outOfBounds) ∧
    (e.sp = 0 → e.execute 0x00ee rnd = Except.error Err.outOfBounds) ∧
    Err.outOfBounds ≠ Err.unknownOpcode := by
  refine ⟨?_, ?_, by decide⟩
  · intro hsp
    rw [execute_eq_dispatch]
    have h1 : (0x2000 + nnn % 4096) / 4096 % 16 = 2 := by omega
    rw [h1]
    show (match e.push e.pc with
      | Except.ok e2 => Except.ok { e2 with pc := (0x2000 + nnn % 4096) &&& 0x0fff }
      | Except.error er => Except.error er) = _
    have hfull : ¬ (e.sp < e.stack.length) := by
      rw [hsp, hwf.2.2.2.2.1]
      decide
    rw [Emu.push, if_neg hfull]
  · intro hsp
    rw [execute_eq_dispatch]
    have h1 : (0x00ee : Nat) / 4096 % 16 = 0 := by norm_num
    have h3 : (0x00ee : Nat) / 16 % 16 = 14 := by norm_num
    rw [h1, h3]
    show (match e.pop with
      | Except.ok (e2, ret_addr) => Except.ok { e2 with pc := ret_addr }
      | Except.error er => Except.error er) = _
    have hsp2 : (e.sp + 65535) % 65536 = 65535 := by rw [hsp]
    have hnone : e.stack.get? 65535 = none := by
      apply List.get?_eq_none.mpr
      rw [hwf.2.2.2.2.1]
      decide
    rw [Emu.pop, hsp2, hnone]

/-- Well-formedness of the full-stack example state. -/
theorem exC9_wf : exC9.Wf :=
  ⟨List.length_replicate _ _, List.length_replicate _ _, List.length_replicate _ _,
   List.length_replicate _ _, List.length_replicate _ _,
   fun b hb => by rw [List.eq_of_mem_replicate hb]; norm_num,
   fun b hb => by rw [List.eq_of_mem_replicate hb]; norm_num,
   by decide, by decide, by decide⟩

/-- Witness for C9: a call 0x2123 with a full stack and a return 0x00ee
with an empty stack both fail with Out Of Bounds. -/
theorem c9_witness :
    Emu.execute exC9 0x2123 0 = Except.error Err.outOfBounds ∧
    Emu.execute emu0 0x00ee 0 = Except.error Err.outOfBounds := by
  constructor
  · exact (c9_stack_overflow_underflow exC9 0 0x123 exC9_wf).1 (by decide)
  · exact (c9_stack_overflow_underflow emu0 0 0 emu0_wf).2.1 (by decide)

/-! ### Claim C10 -/

/-- C10, confirmed. Opcodes 0xex9e and 0xexa1 index the 16-entry key
array directly with the full value of Vx, without masking: whenever
Vx is 16 or more the access is out of bounds and execution fails with
the Out Of Bounds error; whenever Vx is at most 15 both opcodes execute
without any out-of-bounds failure. -/
theorem c10_key_skip_bounds (e : Emu) (rnd x : Nat) (hwf : e.Wf) (hx : x < 16) :
    (16 ≤ e.v_reg.getD x 0 →
      e.execute (0xe09e + 256 * x) rnd = Except.error Err.outOfBounds ∧
      e.execute (0xe0a1 + 256 * x) rnd = Except.error Err.outOfBounds) ∧
    (e.v_reg.getD x 0 < 16 →
      (∃ e2, e.execute (0xe09e + 256 * x) rnd = Except.ok e2) ∧
      (∃ e2, e.execute (0xe0a1 + 256 * x) rnd = Except.ok e2)) := by
  have hdig9e : e.execute (0xe09e + 256 * x) rnd =
      e.execDispatch (0xe09e + 256 * x) rnd 0xe x 0x9 0xe := by
    rw [execute_eq_dispatch]
    have h1 : (0xe09e + 256 * x) / 4096 % 16 = 14 := by omega
    have h2 : (0xe09e + 256 * x) / 256 % 16 = x := by omega
    have h3 : (0xe09e + 256 * x) / 16 % 16 = 9 := by omega
    have h4 : (0xe09e + 256 * x) % 16 = 14 := by omega
    rw [h1, h2, h3, h4]
  have hdiga1 : e.execute (0xe0a1 + 256 * x) rnd =
      e.execDispatch (0xe0a1 + 256 * x) rnd 0xe x 0xa 0x1 := by
    rw [execute_eq_dispatch]
    have h1 : (0xe0a1 + 256 * x) / 4096 % 16 = 14 := by omega
    have h2 : (0xe0a1 + 256 * x) / 256 % 16 = x := by omega
    have h3 : (0xe0a1 + 256 * x) / 16 % 16 = 10 := by omega
    have h4 : (0xe0a1 + 256 * x) % 16 = 1 := by omega
    rw [h1, h2, h3, h4]
  constructor
  · intro hvx
    have hnone : e.keys.get? (e.v_reg.getD x 0) = none := by
      apply List.get?_eq_none.mpr
      rw [hwf.2.2.1]
      have h16 : NUM_KEYS = 16 := rfl
      omega
    constructor
    · rw [hdig9e]
      show (match e.keys.get? (e.v_reg.getD x 0) with
        | some k => if k then Except.ok { e with pc := (e.pc + 2) % 65536 } else Except.ok e
        | none => Except.error Err.outOfBounds) = _
      rw [hnone]
    · rw [hdiga1]
      show (match e.keys.get? (e.v_reg.getD x 0) with
        | some k => if !k then Except.ok { e with pc := (e.pc + 2) % 65536 } else Except.ok e
        | none => Except.error Err.outOfBounds) = _
      rw [hnone]
  · intro hvx
    have hsome : ∃ k, e.keys.get? (e.v_reg.getD x 0) = some k := by
      cases hk : e.keys.get? (e.v_reg.getD x 0) with
      | none =>
        rw [List.get?_eq_none, hwf.2.2.1] at hk
        have h16 : NUM_KEYS = 16 := rfl
        omega
      | some k => exact ⟨k, rfl⟩
    rcases hsome with ⟨k, hk⟩
    constructor
    · rw [hdig9e]
      show ∃ e2, (match e.keys.get? (e.v_reg.getD x 0) with
        | some k => if k then Except.ok { e with pc := (e.pc + 2) % 65536 } else Except.ok e
        | none => Except.error Err.outOfBounds) = Except.ok e2
      rw [hk]
      cases k
      · exact ⟨e, rfl⟩
      · exact ⟨{ e with pc := (e.pc + 2) % 65536 }, rfl⟩
    · rw [hdiga1]
      show ∃ e2, (match e.keys.get? (e.v_reg.getD x 0) with
        | some k => if !k then Except.ok { e with pc := (e.pc + 2) % 65536 } else Except.ok e
        | none => Except.error Err.outOfBounds) = Except.ok e2
      rw [hk]
      cases k
      · exact ⟨{ e with pc := (e.pc + 2) % 65536 }, rfl⟩
      · exact ⟨e, rfl⟩

/-- Well-formedness of the C10 example state (V0 = 16). -/
theorem exC10_wf : exC10.Wf := by
  refine ⟨?_, ?_, ?_, ?_, ?_, ?_, ?_, ?_, ?_, ?_⟩
  · exact List.length_replicate _ _
  · exact List.length_replicate _ _
  · exact List.length_replicate _ _
  · show (emu0.v_reg.set 0 16).length = NUM_REGS
    rw [List.length_set]
    exact List.length_replicate _ _
  · exact List.length_replicate _ _
  · intro b hb
    rw [List.eq_of_mem_replicate hb]; norm_num
  · intro b hb
    rcases List.mem_or_eq_of_mem_set hb with hb | hb
    · rw [List.eq_of_mem_replicate hb]; norm_num
    · rw [hb]; norm_num
  · decide
  · decide
  · decide

/-- Witness for C10: with V0 = 16 the skip-if-key opcode 0xe09e fails
with Out Of Bounds; with V0 = 0 it succeeds. -/
theorem c10_witness :
    Emu.execute exC10 0xe09e 0 = Except.error Err.outOfBounds ∧
    (Emu.execute emu0 0xe09e 0).isOk = true := by
  constructor
  · exact ((c10_key_skip_bounds exC10 0 0 exC10_wf (by decide)).1 (by decide)).1
  · rcases ((c10_key_skip_bounds emu0 0 0 emu0_wf (by decide)).2 (by decide)).1 with ⟨e2, he2⟩
    rw [he2]
    rfl

end Crisp8
